import Mathlib

/-!
Shallow embedding of `src/fdp-api/python/metadata.py` (FAIRDataPoint).

The module has two components:

* `FAIRConfigReader` — reads a section/field/value structure (built by the
  external `SafeConfigParser`), validates it (`_validate`) and exposes it as a
  stream of `(section, field, value)` triples (`getTriples`).
* `FAIRGraph` — maps each triple into RDF statements in a per-resource graph
  context (`setMetadata`, `_onto_map_predicate`), with URI derivation helpers.

Modelling choices:

* Python dicts are modelled as association lists that keep insertion order
  (the reader's `self._metadata` is populated once from the parser's section
  order and never mutated afterwards); lookups take the first matching key.
* Python exceptions raised by `_validate` (via `assert`) are modelled with an
  explicit error type; the raw exceptions a malformed document can trigger
  (`KeyError` on the `_REQUIRED_META` table or a dict item, `ValueError` from
  tuple unpacking, `AttributeError` from `True.append`) get constructors of
  their own.
* Strings are Lean `String`s; the handful of string operations the source
  uses (`in`, `split`, `%`-formatting) are defined below by structural
  recursion on the character list so that concrete documents evaluate inside
  the kernel.
-/

namespace FDP

/-! ### String helpers (Python `in` and `str.split`) -/

/-- Characters used as separators in the source (`'/'`, `'|'`, `'_'`). -/
def cSlash : Char := Char.ofNat 47

def cPipe : Char := Char.ofNat 124

def cUnder : Char := Char.ofNat 95

/-- Is `p` a (character-list) prefix of `l`? -/
def listIsPre : List Char → List Char → Bool
  | [], _ => true
  | _ :: _, [] => false
  | a :: as, b :: bs => a == b && listIsPre as bs

/-- Does `needle` occur as a contiguous sublist of `h`? -/
def hasSub (needle : List Char) : List Char → Bool
  | [] => needle.isEmpty
  | c :: t => listIsPre needle (c :: t) || hasSub needle t

/-- Python `sub in s` for strings. -/
def inStr (sub s : String) : Bool := hasSub sub.data s.data

/-- Python `str.split(sep)` for a one-character separator. -/
def charSplit (c : Char) : List Char → List (List Char)
  | [] => [[]]
  | x :: xs =>
    match charSplit c xs with
    | [] => [[]]
    | h :: t => if x == c then [] :: h :: t else (x :: h) :: t

def strSplit (c : Char) (s : String) : List String :=
  (charSplit c s.data).map String.mk

/-- Python `sh.split('/')[0]`: the kind prefix of a section header. -/
def kindOf (sh : String) : String := (strSplit cSlash sh).headD ""

/-- Python `s.split('/')[n]` (total; the source only indexes positions that
exist because the header was just tested for containing `'/'`). -/
def splitPart (c : Char) (s : String) (n : Nat) : String :=
  (strSplit c s).getD n ""

/-! ### Data model of the parsed configuration -/

/-- A field value: a plain string, or a list of strings (the reader splits a
value containing a newline into a list, `metadata.py` line 79). -/
inductive Value where
  | one : String → Value
  | many : List String → Value
deriving DecidableEq

/-- The reader's `self._metadata`: section header → (field → value), as an
insertion-ordered association list. -/
abbrev Doc := List (String × List (String × Value))

/-- Python `self._metadata[section][key]` (as an `Option`). -/
def fieldsGet (fields : List (String × Value)) (k : String) : Option Value :=
  match fields.find? (fun fv => fv.1 == k) with
  | some fv => some fv.2
  | none => none

/-- Python `field in fields` (dict key membership). -/
def hasField (fields : List (String × Value)) (k : String) : Bool :=
  fields.any (fun fv => fv.1 == k)

/-- `_arrfy` (`metadata.py` lines 122-127): wrap a single string into a
one-element list, pass a list through. -/
def arrfy : Value → List String
  | .one s => [s]
  | .many l => l

/-! ### The validation error taxonomy

The four `assert` messages of `_validate`, plus the raw exceptions that
escape it on malformed input. -/

inductive ValError where
  /-- `_errorSectionNotFound`: a mandatory section kind has no section. -/
  | missingSection (sect : String)
  /-- `_errorFieldNotFound`: a required field (or both halves of an
  alternative pair) is absent from `sect`. -/
  | missingField (field sect : String)
  /-- `_errorResourceIdNotUnique`: a resource id was declared twice. -/
  | duplicateResourceId (id : String)
  /-- `_errorReferenceNotFound` for the parent kind / id field / child kind. -/
  | danglingReference (parent field child : String)
  /-- Raw Python `KeyError` (unknown kind in `_REQUIRED_META`, or a missing
  dict item in `getItems`). -/
  | keyError (key : String)
  /-- Raw Python `AttributeError` (`True.append(...)` when a bare kind header
  was followed by a `kind/id` header of the same kind). -/
  | attributeError
  /-- Raw Python `ValueError` (tuple unpacking of a split with more than two
  parts). -/
  | valueError
deriving DecidableEq

/-! ### The schema table `_REQUIRED_META` -/

def CORE_META : List String := ["title", "publisher", "version", "issued", "modified"]

/-- `_REQUIRED_META` (`metadata.py` lines 18-22), as a lookup function;
`none` models the `KeyError` an unknown kind raises. -/
def requiredMeta (kind : String) : Option (List String) :=
  if kind = "fdp" then some (CORE_META ++ ["fdp_id", "catalog_id"])
  else if kind = "catalog" then some (CORE_META ++ ["dataset_id", "theme_taxonomy"])
  else if kind = "dataset" then some (CORE_META ++ ["distribution_id", "theme"])
  else if kind = "distribution" then
    some (CORE_META ++ ["access_url|download_url", "media_type", "license"])
  else none

/-- The four id fields tested at `metadata.py` line 154. -/
def idFields : List String := ["fdp_id", "catalog_id", "dataset_id", "distribution_id"]

/-! ### Phase 1 of `_validate`: collecting section kinds and header ids -/

/-- An entry of the `sections` dict: `True` (set for a bare kind header) or
the list of ids collected from `kind/id` headers. -/
inductive SecEntry where
  | flag
  | ids (l : List String)
deriving DecidableEq

def initSections : List (String × SecEntry) :=
  [("fdp", .ids []), ("catalog", .ids []), ("dataset", .ids []), ("distribution", .ids [])]

def secMem (k : String) (secs : List (String × SecEntry)) : Bool :=
  secs.any (fun e => e.1 == k)

def secGet : List (String × SecEntry) → String → SecEntry
  | [], _ => .ids []
  | (k0, e) :: rest, k => if k0 == k then e else secGet rest k

def secSet : List (String × SecEntry) → String → SecEntry → List (String × SecEntry)
  | [], _, _ => []
  | (k0, v0) :: rest, k, v =>
    if k0 == k then (k0, v) :: rest else (k0, v0) :: secSet rest k v

/-- Python truthiness of a `sections` entry (`True`, or a non-empty list). -/
def truthy : SecEntry → Bool
  | .flag => true
  | .ids l => !l.isEmpty

/-- The first loop of `_validate` (`metadata.py` lines 130-137): mark bare
kind headers with `True` and append the id of each `kind/id` header. -/
def collectLoop : Doc → List (String × SecEntry) → Except ValError (List (String × SecEntry))
  | [], secs => .ok secs
  | (sh, _) :: rest, secs =>
    let secs1 := if secMem sh secs then secSet secs sh .flag else secs
    if inStr "/" sh then
      match strSplit cSlash sh with
      | [sect, rid] =>
        if secMem sect secs1 then
          match secGet secs1 sect with
          | .flag => .error .attributeError
          | .ids l => collectLoop rest (secSet secs1 sect (.ids (l ++ [rid])))
        else collectLoop rest secs1
      | _ => .error .valueError
    else collectLoop rest secs1

/-- The mandatory-section asserts (`metadata.py` lines 139-140). -/
def checkMandatory : List (String × SecEntry) → Except ValError Unit
  | [] => .ok ()
  | (k, e) :: rest => if truthy e then checkMandatory rest else .error (.missingSection k)

/-! ### Phase 2: required fields and resource-id uniqueness -/

/-- Register resource ids in the `uniq_resource_ids` dict
(`metadata.py` lines 155-157), failing on the first repeat. -/
def regIds : List String → List String → Except ValError (List String)
  | [], uniq => .ok uniq
  | i :: rest, uniq =>
    if uniq.contains i then .error (.duplicateResourceId i)
    else regIds rest (uniq ++ [i])

/-- The presence test of one required-field entry (`metadata.py` lines
147-151): an alternative pair `a|b` is satisfied by either side; a plain
field must be a key of the section. -/
def presentCheck (sh : String) (fields : List (String × Value)) (f : String) :
    Except ValError Unit :=
  if inStr "|" f then
    match strSplit cPipe f with
    | [a, b] =>
      if hasField fields a || hasField fields b then .ok ()
      else .error (.missingField f sh)
    | _ => .error .valueError
  else if hasField fields f then .ok () else .error (.missingField f sh)

/-- The required-field loop for one section (`metadata.py` lines 144-157):
presence of each required field, and registration of the values of the four
id fields. -/
def checkFields (sh : String) (fields : List (String × Value)) :
    List String → List String → Except ValError (List String)
  | [], uniq => .ok uniq
  | f :: rest, uniq =>
    match presentCheck sh fields f with
    | .error e => .error e
    | .ok _ =>
      if idFields.contains f then
        match fieldsGet fields f with
        | none => .error (.keyError f)
        | some v =>
          match regIds (arrfy v) uniq with
          | .error e => .error e
          | .ok uniq2 => checkFields sh fields rest uniq2
      else checkFields sh fields rest uniq

/-- Python `ids1 == ids2` where `ids2` is a `sections` entry: a list never
equals `True`, and lists compare element-wise (order and multiplicity
sensitive). -/
def entryEqList (e : SecEntry) (l : List String) : Bool :=
  match e with
  | .flag => false
  | .ids l2 => l == l2

/-- The cross-reference checks (`metadata.py` lines 159-169).  Note the
matching is substring containment of the kind name in the header. -/
def checkRefs (sh : String) (fields : List (String × Value))
    (secs : List (String × SecEntry)) : Except ValError Unit :=
  match (if inStr "fdp" sh then
      match fieldsGet fields "catalog_id" with
      | none => .error (.keyError "catalog_id")
      | some v =>
        if entryEqList (secGet secs "catalog") (arrfy v) then .ok ()
        else .error (.danglingReference "fdp" "catalog_id" "catalog")
    else (.ok () : Except ValError Unit)) with
  | .error e => .error e
  | .ok _ =>
    match (if inStr "catalog" sh then
        match fieldsGet fields "dataset_id" with
        | none => .error (.keyError "dataset_id")
        | some v =>
          if entryEqList (secGet secs "dataset") (arrfy v) then .ok ()
          else .error (.danglingReference "catalog" "dataset_id" "dataset")
      else (.ok () : Except ValError Unit)) with
    | .error e => .error e
    | .ok _ =>
      if inStr "dataset" sh then
        match fieldsGet fields "distribution_id" with
        | none => .error (.keyError "distribution_id")
        | some v =>
          if entryEqList (secGet secs "distribution") (arrfy v) then .ok ()
          else .error (.danglingReference "dataset" "distribution_id" "distribution")
      else .ok ()

/-- The main loop of `_validate` (`metadata.py` lines 143-169), one section
at a time, threading the `uniq_resource_ids` state. -/
def validateLoop (secs : List (String × SecEntry)) :
    Doc → List String → Except ValError Unit
  | [], _ => .ok ()
  | (sh, fields) :: rest, uniq =>
    match requiredMeta (kindOf sh) with
    | none => .error (.keyError (kindOf sh))
    | some reqs =>
      match checkFields sh fields reqs uniq with
      | .error e => .error e
      | .ok uniq2 =>
        match checkRefs sh fields secs with
        | .error e => .error e
        | .ok _ => validateLoop secs rest uniq2

/-- `FAIRConfigReader._validate` (`metadata.py` lines 113-169). -/
def validate (d : Doc) : Except ValError Unit :=
  match collectLoop d initSections with
  | .error e => .error e
  | .ok secs =>
    match checkMandatory secs with
    | .error e => .error e
    | .ok _ => validateLoop secs d []

/-! ### `getTriples` (`metadata.py` lines 102-110) -/

def getTriples (d : Doc) : List (String × String × String) :=
  d.flatMap (fun sec =>
    sec.2.flatMap (fun fv =>
      match fv.2 with
      | .one s => [(sec.1, fv.1, s)]
      | .many l => l.map (fun item => (sec.1, fv.1, item))))

/-! ### Date parsing: CPython `datetime.strptime(o, "%Y-%m-%d")`

CPython compiles the format to the regex
`(?P<Y>\d\d\d\d)\-(?P<m>1[0-2]|0[1-9]|[1-9])\-(?P<d>3[01]|[12]\d|0[1-9]|[1-9])`,
requires the whole input to be consumed, and then builds a `datetime`, which
checks the calendar (raising `day is out of range for month`, and rejecting
year 0).  The year is exactly four digits; month and day may be one or two
digits (so e.g. `2020-2-3` parses fine).  We return `none` on success and
`some message` for the `ValueError` message (value quotes omitted from the
non-matching-format message). -/

def digitVal (c : Char) : Option Nat :=
  if 48 ≤ c.toNat && c.toNat ≤ 57 then some (c.toNat - 48) else none

/-- Match the month group `1[0-2]|0[1-9]|[1-9]` (deterministic: when a
two-digit alternative matches, the one-digit fallback would need a dash
where a digit stands, so no backtracking can change the outcome). -/
def matchMonth : List Char → Option (Nat × List Char)
  | c1 :: c2 :: rest =>
    match digitVal c1, digitVal c2 with
    | some 1, some v2 => if v2 ≤ 2 then some (10 + v2, rest) else some (1, c2 :: rest)
    | some 0, some v2 => if 1 ≤ v2 then some (v2, rest) else none
    | some v1, _ => if 1 ≤ v1 then some (v1, c2 :: rest) else none
    | none, _ => none
  | [c1] =>
    match digitVal c1 with
    | some v1 => if 1 ≤ v1 then some (v1, []) else none
    | none => none
  | [] => none

/-- Match the day group `3[01]|[12]\d|0[1-9]|[1-9]`. -/
def matchDay : List Char → Option (Nat × List Char)
  | c1 :: c2 :: rest =>
    match digitVal c1, digitVal c2 with
    | some 3, some v2 => if v2 ≤ 1 then some (30 + v2, rest) else some (3, c2 :: rest)
    | some 1, some v2 => some (10 + v2, rest)
    | some 2, some v2 => some (20 + v2, rest)
    | some 0, some v2 => if 1 ≤ v2 then some (v2, rest) else none
    | some v1, _ => if 1 ≤ v1 then some (v1, c2 :: rest) else none
    | none, _ => none
  | [c1] =>
    match digitVal c1 with
    | some v1 => if 1 ≤ v1 then some (v1, []) else none
    | none => none
  | [] => none

/-- The structural regex match: four year digits, a dash, month, dash, day;
returns the parsed numbers and the unconverted remainder. -/
def matchYMD (cs : List Char) : Option (Nat × Nat × Nat × List Char) :=
  match cs with
  | y1 :: y2 :: y3 :: y4 :: dash1 :: rest =>
    match digitVal y1, digitVal y2, digitVal y3, digitVal y4 with
    | some a, some b, some c, some d =>
      if dash1.toNat = 45 then
        match matchMonth rest with
        | none => none
        | some (m, rest2) =>
          match rest2 with
          | dash2 :: rest3 =>
            if dash2.toNat = 45 then
              match matchDay rest3 with
              | none => none
              | some (dy, rest4) => some (1000 * a + 100 * b + 10 * c + d, m, dy, rest4)
            else none
          | [] => none
      else none
    | _, _, _, _ => none
  | _ => none

def isLeap (y : Nat) : Bool := y % 4 = 0 && (y % 100 ≠ 0 || y % 400 = 0)

def daysInMonth (y m : Nat) : Nat :=
  if m = 2 then (if isLeap y then 29 else 28)
  else if m = 4 || m = 6 || m = 9 || m = 11 then 30
  else 31

/-- `datetime.strptime(s, "%Y-%m-%d")`: `none` on success, `some msg` for the
raised `ValueError`'s message. -/
def strptimeYmd (s : String) : Option String :=
  match matchYMD s.data with
  | none => some ("time data " ++ s ++ " does not match format %Y-%m-%d")
  | some (y, m, d, rest) =>
    if !rest.isEmpty then some ("unconverted data remains: " ++ String.mk rest)
    else if y = 0 then some "year 0 is out of range"
    else if daysInMonth y m < d then some "day is out of range for month"
    else none

/-! ### RDF vocabulary constants (namespaces bound in `metadata.py`) -/

def dct (s : String) : String := "http://purl.org/dc/terms/" ++ s

def dcat (s : String) : String := "http://www.w3.org/ns/dcat#" ++ s

def xsd (s : String) : String := "http://www.w3.org/2001/XMLSchema#" ++ s

def rdfType : String := "http://www.w3.org/1999/02/22-rdf-syntax-ns#type"

def rdfs (s : String) : String := "http://www.w3.org/2000/01/rdf-schema#" ++ s

def langEn : String := "http://id.loc.gov/vocabulary/iso639-1/en"

/-- `_ONTO_MAP_PREDICATE` (`metadata.py` lines 25-43): field name →
list of (predicate, datatype) pairs; `none` models a table miss (the field
is silently skipped). -/
def ontoMap (p : String) : Option (List (String × String)) :=
  if p = "fdp_id" then some [(dct "identifier", xsd "string")]
  else if p = "catalog_id" then some [(dct "hasPart", xsd "anyURI")]
  else if p = "dataset_id" then some [(dcat "dataset", xsd "anyURI")]
  else if p = "distribution_id" then some [(dcat "distribution", xsd "anyURI")]
  else if p = "title" then some [(dct "title", xsd "string"), (rdfs "label", xsd "string")]
  else if p = "description" then some [(dct "description", xsd "string")]
  else if p = "publisher" then some [(dct "publisher", xsd "anyURI")]
  else if p = "issued" then some [(dct "issued", xsd "date")]
  else if p = "modified" then some [(dct "modified", xsd "date")]
  else if p = "version" then some [(dct "version", xsd "string")]
  else if p = "license" then some [(dct "license", xsd "anyURI")]
  else if p = "theme" then some [(dcat "theme", xsd "anyURI")]
  else if p = "theme_taxonomy" then some [(dcat "themeTaxonomy", xsd "anyURI")]
  else if p = "lading_page" then some [(dcat "landingPage", xsd "anyURI")]
  else if p = "keyword" then some [(dcat "keyword", xsd "string")]
  else if p = "access_url" then some [(dcat "accessURL", xsd "anyURI")]
  else if p = "download_url" then some [(dcat "downloadURL", xsd "anyURI")]
  else if p = "media_type" then some [(dcat "mediaType", xsd "string")]
  else none

/-! ### Graph state -/

/-- An rdflib value: a plain Python string, a `URIRef`, or a typed
`Literal`.  `URIRef`/`Literal` applied to another node take its lexical
form, which `pyStr` computes (Python `str(o)` / `'%s' % o`). -/
inductive PyVal where
  | str (s : String)
  | uriRef (s : String)
  | lit (s dtype : String)
deriving DecidableEq

def pyStr : PyVal → String
  | .str s => s
  | .uriRef s => s
  | .lit s _ => s

/-- An RDF statement (subject URI, predicate URI, object). -/
def Statement := String × String × PyVal

instance : DecidableEq Statement := by unfold Statement; infer_instance

/-- The conjunctive graph: context URI → set of statements, modelled as an
insertion-ordered association list of insertion-ordered duplicate-free
statement lists. -/
def FGraph := List (String × List Statement)

instance : DecidableEq FGraph := by unfold FGraph; infer_instance

/-- rdflib's `Graph.add`: statement sets have set semantics. -/
def ctxAdd (c : List Statement) (st : Statement) : List Statement :=
  if c.contains st then c else c ++ [st]

/-- Statements of the context named `u` (a fresh context is empty). -/
def ctxOf : FGraph → String → List Statement
  | [], _ => []
  | (k, c) :: rest, u => if k == u then c else ctxOf rest u

/-- Add a statement to the context named `u`, creating it lazily. -/
def gAdd (g : FGraph) (u : String) (st : Statement) : FGraph :=
  match g with
  | [] => [(u, [st])]
  | (k, c) :: rest => if k == u then (k, ctxAdd c st) :: rest else (k, c) :: gAdd rest u st

def gAddList (g : FGraph) (l : List (String × Statement)) : FGraph :=
  l.foldl (fun g e => gAdd g e.1 e.2) g

/-- Run an "add this statement list" computation against a graph state (the
shape every `setMetadata` step factors through, since the statements it adds
never depend on the graph). -/
def stepRun (g : FGraph) (r : Except String (List (String × Statement))) :
    Except String FGraph :=
  match r with
  | .error e => .error e
  | .ok l => .ok (gAddList g l)

/-! ### URI derivation (`metadata.py` lines 189-210)

`FAIRGraph.__init__` stores `http`-schemed `host` as the base URI; the
helpers below take that base as an explicit argument. -/

def baseOf (host : String) : String := "http://" ++ host

def docURI (base : String) : String := base ++ "/doc"

def fdpURI (base : String) : String := base ++ "/fdp"

def catURI (base id : String) : String := base ++ "/catalog/" ++ id

def datURI (base id : String) : String := base ++ "/dataset/" ++ id

def distURI (base id : String) : String := base ++ "/distribution/" ++ id

/-! ### `_onto_map_predicate` (`metadata.py` lines 274-289) -/

/-- One pass of the `for (mp, dtype)` loop body: the date-format check, the
`anyURI` branch with the `'_id'` relative-path rewrite, the `Literal`
fallback, and the rebinding of `o` that carries into later pairs.  `ctx` is
the URI naming the context `g` was obtained from (always the subject `s` at
the call sites). -/
def ontoLoop (ctx s p : String) :
    List (String × String) → FGraph → PyVal → Except String FGraph
  | [], g, _ => .ok g
  | (mp, dtype) :: rest, g, o =>
    match (if dtype = xsd "date" then strptimeYmd (pyStr o) else none) with
    | some msg => .error msg
    | none =>
      let o2 : PyVal :=
        if dtype = xsd "anyURI" then
          if inStr "_id" p then
            .uriRef ("../" ++ (strSplit cUnder p).headD "" ++ "/" ++ pyStr o)
          else .uriRef (pyStr o)
        else .lit (pyStr o) dtype
      ontoLoop ctx s p rest (gAdd g ctx (s, mp, o2)) o2

def ontoMapPredicate (g : FGraph) (ctx s p : String) (o : PyVal) :
    Except String FGraph :=
  match ontoMap p with
  | none => .ok g
  | some pairs => ontoLoop ctx s p pairs g o

/-! ### `setMetadata` (`metadata.py` lines 218-267) -/

def setMetadata (base : String) (g0 : FGraph) (t : String × String × String) :
    Except String FGraph :=
  let s := t.1
  let p := t.2.1
  let o := t.2.2
  let step1 : Except String FGraph :=
    if s = "fdp" then
      let uri := fdpURI base
      let g := gAdd g0 uri (uri, rdfType, .uriRef (dct "Agent"))
      let g := gAdd g uri (uri, rdfs "seeAlso", .uriRef (docURI base))
      let g := gAdd g uri (uri, dct "language", .uriRef langEn)
      ontoMapPredicate g uri uri p (.str o)
    else .ok g0
  match step1 with
  | .error e => .error e
  | .ok g1 =>
    let step2 : Except String FGraph :=
      if inStr "catalog/" s then
        let cid := splitPart cSlash s 1
        let uri := catURI base cid
        let g := gAdd g1 uri (uri, rdfType, .uriRef (dcat "Catalog"))
        let g := gAdd g uri (uri, dct "language", .uriRef langEn)
        let g := gAdd g uri (uri, dct "identifier", .lit cid (xsd "string"))
        ontoMapPredicate g uri uri p (.str o)
      else .ok g1
    match step2 with
    | .error e => .error e
    | .ok g2 =>
      let step3 : Except String FGraph :=
        if inStr "dataset/" s then
          let did := splitPart cSlash s 1
          let uri := datURI base did
          let g := gAdd g2 uri (uri, rdfType, .uriRef (dcat "Dataset"))
          let g := gAdd g uri (uri, dct "language", .uriRef langEn)
          let g := gAdd g uri (uri, dct "identifier", .lit did (xsd "string"))
          ontoMapPredicate g uri uri p (.str o)
        else .ok g2
      match step3 with
      | .error e => .error e
      | .ok g3 =>
        if inStr "distribution/" s then
          let sid := splitPart cSlash s 1
          let uri := distURI base sid
          let g := gAdd g3 uri (uri, rdfType, .uriRef (dcat "Distribution"))
          let g := gAdd g uri (uri, dct "language", .uriRef langEn)
          let g := gAdd g uri (uri, dct "identifier", .lit sid (xsd "string"))
          ontoMapPredicate g uri uri p (.str o)
        else .ok g3

/-! ### Derived notions used to state the claims -/

/-- The presence test `checkFields` applies to one required-field entry:
for an alternative pair `a|b` either side suffices, otherwise the field
itself must be a key of the section. -/
def fieldOk (fields : List (String × Value)) (f : String) : Bool :=
  if inStr "|" f then
    match strSplit cPipe f with
    | [a, b] => hasField fields a || hasField fields b
    | _ => false
  else hasField fields f

/-- The resource ids one section registers in `uniq_resource_ids`: the
values of those required fields that are id fields, in check order. -/
def secDeclIds (fields : List (String × Value)) : List String → List String
  | [] => []
  | f :: rest =>
    (if idFields.contains f then
      match fieldsGet fields f with
      | some v => arrfy v
      | none => []
     else []) ++ secDeclIds fields rest

/-- All resource ids the document declares through required id fields, in
the order `_validate` registers them. -/
def declaredIds (d : Doc) : List String :=
  d.flatMap (fun sec =>
    match requiredMeta (kindOf sec.1) with
    | none => []
    | some reqs => secDeclIds sec.2 reqs)

/-- The ids appearing as `k/id` section-header suffixes, in document order
(mirrors the guard structure of `collectLoop`). -/
def headerSuffixIds (d : Doc) (k : String) : List String :=
  match d with
  | [] => []
  | (sh, _) :: rest =>
    if inStr "/" sh then
      match strSplit cSlash sh with
      | [s1, rid] =>
        if s1 == k then rid :: headerSuffixIds rest k else headerSuffixIds rest k
      | _ => headerSuffixIds rest k
    else headerSuffixIds rest k

/-- Set inclusion and set equality of two lists of ids (the reading the
spec gives to the cross-reference comparison). -/
def subOf (l1 l2 : List String) : Bool := l1.all (fun x => l2.contains x)

def sameSet (l1 l2 : List String) : Bool := subOf l1 l2 && subOf l2 l1

/-- Spec-worded definition of the exact `YYYY-MM-DD` date format: exactly
four year digits, a dash, exactly two month digits, a dash, exactly two day
digits, naming a valid calendar date. -/
def isExactYMD (s : String) : Bool :=
  match s.data with
  | [y1, y2, y3, y4, q1, m1, m2, q2, t1, t2] =>
    match digitVal y1, digitVal y2, digitVal y3, digitVal y4,
          digitVal m1, digitVal m2, digitVal t1, digitVal t2 with
    | some a, some b, some c, some d, some m10, some m0, some d10, some d0 =>
      let y := 1000 * a + 100 * b + 10 * c + d
      let m := 10 * m10 + m0
      let dy := 10 * d10 + d0
      q1.toNat = 45 && q2.toNat = 45 && 1 ≤ y && 1 ≤ m && m ≤ 12 &&
        1 ≤ dy && dy ≤ daysInMonth y m
    | _, _, _, _, _, _, _, _ => false
  | _ => false

/-- Spec-worded restatement of the output contract of `getTriples`: one
tuple per declared field-value pair, multi-valued fields expanded, in
section-then-field-then-value declaration order. -/
def specTripleSeq (d : Doc) : List (String × String × String) :=
  d.foldr (fun sec acc =>
    sec.2.foldr (fun fv acc2 =>
      (arrfy fv.2).foldr (fun v acc3 => (sec.1, fv.1, v) :: acc3) acc2) acc) []

/-- The number of declared field-value pairs of the document (a list value
counting once per element). -/
def tripleCount (d : Doc) : Nat :=
  d.foldr (fun sec n => sec.2.foldr (fun fv n2 => (arrfy fv.2).length + n2) n) 0

/-! ### Concrete documents used by the claims -/

/-- The five core fields every kind requires, all present. -/
def core4 : List (String × Value) :=
  [("title", .one "T"), ("publisher", .one "P"), ("version", .one "1.0"),
   ("issued", .one "2015-11-24"), ("modified", .one "2015-11-24")]

/-- A minimal fully valid document: one resource of each kind, consistent
cross references, distinct ids. -/
def Dmin : Doc :=
  [("fdp", core4 ++ [("fdp_id", .one "fdp0"), ("catalog_id", .one "cat1")]),
   ("catalog/cat1", core4 ++ [("dataset_id", .one "dat1"), ("theme_taxonomy", .one "TT")]),
   ("dataset/dat1", core4 ++ [("distribution_id", .one "dis1"), ("theme", .one "Th")]),
   ("distribution/dis1", core4 ++ [("access_url", .one "http://x"),
     ("media_type", .one "text/turtle"), ("license", .one "L")])]

/-- Like `Dmin` but with two catalogs whose ids the fdp section lists in the
opposite of header order: the reference sets are equal, the lists are not. -/
def Dswap : Doc :=
  [("fdp", core4 ++ [("fdp_id", .one "fdp0"), ("catalog_id", .many ["cat2", "cat1"])]),
   ("catalog/cat1", core4 ++ [("dataset_id", .one "dat1"), ("theme_taxonomy", .one "TT")]),
   ("catalog/cat2", core4 ++ [("dataset_id", .one "dat1"), ("theme_taxonomy", .one "TT")]),
   ("dataset/dat1", core4 ++ [("distribution_id", .one "dis1"), ("theme", .one "Th")]),
   ("distribution/dis1", core4 ++ [("access_url", .one "http://x"),
     ("media_type", .one "text/turtle"), ("license", .one "L")])]

/-- All mandatory sections present, `catalog/c1` lacks `title`, but the fdp
section declares the same id `x` twice (`fdp_id` and `catalog_id`). -/
def Ddup : Doc :=
  [("fdp", core4 ++ [("fdp_id", .one "x"), ("catalog_id", .one "x")]),
   ("catalog/c1", [("publisher", .one "P"), ("version", .one "1.0"),
     ("issued", .one "2015-11-24"), ("modified", .one "2015-11-24"),
     ("dataset_id", .one "d1"), ("theme_taxonomy", .one "TT")]),
   ("dataset/d1", core4 ++ [("distribution_id", .one "e1"), ("theme", .one "Th")]),
   ("distribution/e1", core4 ++ [("access_url", .one "http://x"),
     ("media_type", .one "m"), ("license", .one "L")])]

/-- All mandatory sections present, id `y` declared twice, but the fdp
section lacks `title`, which the field loop reaches first. -/
def Dmf : Doc :=
  [("fdp", [("publisher", .one "P"), ("version", .one "1.0"),
     ("issued", .one "2015-11-24"), ("modified", .one "2015-11-24"),
     ("fdp_id", .one "y"), ("catalog_id", .one "y")]),
   ("catalog/y", core4 ++ [("dataset_id", .one "d1"), ("theme_taxonomy", .one "TT")]),
   ("dataset/d1", core4 ++ [("distribution_id", .one "e1"), ("theme", .one "Th")]),
   ("distribution/e1", core4 ++ [("access_url", .one "http://x"),
     ("media_type", .one "m"), ("license", .one "L")])]

/-- A document whose only section has the unknown kind `foo`. -/
def Dfoo : Doc := [("foo", [("title", .one "t")])]

/-- All mandatory sections present and an unknown-kind section first. -/
def Dzzz : Doc :=
  [("zzz/q", [("title", .one "t")]),
   ("fdp", core4 ++ [("fdp_id", .one "f"), ("catalog_id", .one "c1")]),
   ("catalog/c1", core4 ++ [("dataset_id", .one "d1"), ("theme_taxonomy", .one "TT")]),
   ("dataset/d1", core4 ++ [("distribution_id", .one "e1"), ("theme", .one "Th")]),
   ("distribution/e1", core4 ++ [("access_url", .one "u"),
     ("media_type", .one "m"), ("license", .one "L")])]

/-! ## Lemmas: graph accumulation has set semantics -/

theorem mem_ctxAdd_self (c : List Statement) (st : Statement) : st ∈ ctxAdd c st := by
  unfold ctxAdd
  split
  · next h => simpa using h
  · exact List.mem_append_right _ (List.mem_singleton.mpr rfl)

theorem mem_ctxAdd_of_mem {c : List Statement} {x : Statement} (st : Statement)
    (h : x ∈ c) : x ∈ ctxAdd c st := by
  unfold ctxAdd
  split
  · exact h
  · exact List.mem_append_left _ h

theorem ctxAdd_eq_of_mem {c : List Statement} {st : Statement} (h : st ∈ c) :
    ctxAdd c st = c := by
  have hc : c.contains st = true := by simpa using h
  show (if c.contains st = true then c else c ++ [st]) = c
  rw [if_pos hc]

theorem mem_ctxOf_gAdd_self (u : String) (st : Statement) :
    ∀ g : FGraph, st ∈ ctxOf (gAdd g u st) u := by
  intro g
  induction g with
  | nil => simp [gAdd, ctxOf]
  | cons e rest ih =>
    obtain ⟨k, c⟩ := e
    by_cases hk : k == u
    · simp [gAdd, ctxOf, hk, mem_ctxAdd_self]
    · simp only [gAdd, ctxOf, hk, Bool.false_eq_true, if_false]
      exact ih

theorem mem_ctxOf_gAdd {u : String} {x : Statement} (u2 : String) (st : Statement) :
    ∀ g : FGraph, x ∈ ctxOf g u → x ∈ ctxOf (gAdd g u2 st) u := by
  intro g
  induction g with
  | nil => intro h; simp [ctxOf] at h
  | cons e rest ih =>
    obtain ⟨k, c⟩ := e
    intro h
    by_cases hk2 : k == u2
    · by_cases hk : k == u
      · simp only [ctxOf, hk, if_true] at h
        simp only [gAdd, hk2, if_true, ctxOf, hk]
        exact mem_ctxAdd_of_mem st h
      · simp only [ctxOf, hk, Bool.false_eq_true, if_false] at h
        simpa only [gAdd, hk2, if_true, ctxOf, hk, Bool.false_eq_true, if_false] using h
    · by_cases hk : k == u
      · simp only [ctxOf, hk, if_true] at h
        simpa only [gAdd, hk2, Bool.false_eq_true, if_false, ctxOf, hk, if_true] using h
      · simp only [ctxOf, hk, Bool.false_eq_true, if_false] at h
        simp only [gAdd, hk2, Bool.false_eq_true, if_false, ctxOf, hk]
        exact ih h

theorem gAdd_eq_of_mem {u : String} {st : Statement} :
    ∀ {g : FGraph}, st ∈ ctxOf g u → gAdd g u st = g := by
  intro g
  induction g with
  | nil => intro h; simp [ctxOf] at h
  | cons e rest ih =>
    obtain ⟨k, c⟩ := e
    intro h
    by_cases hk : k == u
    · simp only [ctxOf, hk, if_true] at h
      simp [gAdd, hk, ctxAdd_eq_of_mem h]
    · simp only [ctxOf, hk, Bool.false_eq_true, if_false] at h
      simp [gAdd, hk, ih h]

theorem gAddList_cons (g : FGraph) (e : String × Statement) (l : List (String × Statement)) :
    gAddList g (e :: l) = gAddList (gAdd g e.1 e.2) l := rfl

theorem gAddList_append (g : FGraph) (l1 l2 : List (String × Statement)) :
    gAddList g (l1 ++ l2) = gAddList (gAddList g l1) l2 :=
  List.foldl_append _ _ _ _

theorem mem_ctxOf_gAddList {u : String} {x : Statement}
    (l : List (String × Statement)) :
    ∀ {g : FGraph}, x ∈ ctxOf g u → x ∈ ctxOf (gAddList g l) u := by
  induction l with
  | nil => intro g h; exact h
  | cons e rest ih =>
    intro g h
    rw [gAddList_cons]
    exact ih (mem_ctxOf_gAdd e.1 e.2 g h)

theorem mem_ctxOf_gAddList_all (l : List (String × Statement)) :
    ∀ (g : FGraph) (e : String × Statement), e ∈ l → e.2 ∈ ctxOf (gAddList g l) e.1 := by
  induction l with
  | nil => intro g e h; simp at h
  | cons e0 rest ih =>
    intro g e h
    rcases List.mem_cons.mp h with h0 | h1
    · subst h0
      rw [gAddList_cons]
      exact mem_ctxOf_gAddList rest (mem_ctxOf_gAdd_self e.1 e.2 g)
    · rw [gAddList_cons]
      exact ih _ e h1

theorem gAddList_eq_of_mem :
    ∀ (l : List (String × Statement)) (g : FGraph),
      (∀ e ∈ l, e.2 ∈ ctxOf g e.1) → gAddList g l = g := by
  intro l
  induction l with
  | nil => intro g _; rfl
  | cons e rest ih =>
    intro g h
    rw [gAddList_cons, gAdd_eq_of_mem (h e (List.mem_cons_self e rest))]
    exact ih g (fun e2 he2 => h e2 (List.mem_cons_of_mem e he2))

theorem gAddList_idem (g : FGraph) (l : List (String × Statement)) :
    gAddList (gAddList g l) l = gAddList g l :=
  gAddList_eq_of_mem l (gAddList g l) (fun e he => mem_ctxOf_gAddList_all l g e he)

/-! ## The statements `setMetadata` adds depend only on the triple

Every step of `setMetadata` and `_onto_map_predicate` either fails with an
error determined by the triple alone, or adds a statement list determined by
the triple alone; the graph argument is only ever threaded through `add`.
`stepRun` packages that shape. -/

theorem ontoLoop_stepRun (ctx s p : String) :
    ∀ (pairs : List (String × String)) (o : PyVal),
      ∃ r, ∀ g : FGraph, ontoLoop ctx s p pairs g o = stepRun g r := by
  intro pairs
  induction pairs with
  | nil => exact fun o => ⟨.ok [], fun g => rfl⟩
  | cons pr rest ih =>
    intro o
    obtain ⟨mp, dtype⟩ := pr
    cases hd : (if dtype = xsd "date" then strptimeYmd (pyStr o) else none) with
    | some msg =>
      refine ⟨.error msg, fun g => ?_⟩
      simp only [ontoLoop, hd, stepRun]
    | none =>
      obtain ⟨r, hr⟩ := ih
        (if dtype = xsd "anyURI" then
          if inStr "_id" p then
            .uriRef ("../" ++ (strSplit cUnder p).headD "" ++ "/" ++ pyStr o)
          else .uriRef (pyStr o)
        else .lit (pyStr o) dtype)
      cases r with
      | error e =>
        refine ⟨.error e, fun g => ?_⟩
        simp only [ontoLoop, hd]
        rw [hr]
        rfl
      | ok l =>
        refine ⟨.ok ((ctx, (s, mp,
          if dtype = xsd "anyURI" then
            if inStr "_id" p then
              .uriRef ("../" ++ (strSplit cUnder p).headD "" ++ "/" ++ pyStr o)
            else .uriRef (pyStr o)
          else .lit (pyStr o) dtype)) :: l), fun g => ?_⟩
        simp only [ontoLoop, hd]
        rw [hr]
        rfl

theorem ontoMapPredicate_stepRun (ctx s p : String) (o : PyVal) :
    ∃ r, ∀ g : FGraph, ontoMapPredicate g ctx s p o = stepRun g r := by
  unfold ontoMapPredicate
  cases ontoMap p with
  | none => exact ⟨.ok [], fun g => rfl⟩
  | some pairs => exact ontoLoop_stepRun ctx s p pairs o

theorem stepRun_comp {f h : FGraph → Except String FGraph}
    (hf : ∃ r, ∀ g, f g = stepRun g r) (hh : ∃ r, ∀ g, h g = stepRun g r) :
    ∃ r, ∀ g, (match f g with | .error e => .error e | .ok g1 => h g1) = stepRun g r := by
  obtain ⟨r1, h1⟩ := hf
  obtain ⟨r2, h2⟩ := hh
  cases r1 with
  | error e => exact ⟨.error e, fun g => by rw [h1]; rfl⟩
  | ok l1 =>
    cases r2 with
    | error e => exact ⟨.error e, fun g => by rw [h1]; exact h2 _⟩
    | ok l2 =>
      refine ⟨.ok (l1 ++ l2), fun g => ?_⟩
      rw [h1]
      show h (gAddList g l1) = _
      rw [h2, stepRun, stepRun, gAddList_append]

theorem gAddList_boot3 (g : FGraph) (u : String) (b1 b2 b3 : Statement)
    (l : List (String × Statement)) :
    gAddList g ([(u, b1), (u, b2), (u, b3)] ++ l) =
      gAddList (gAdd (gAdd (gAdd g u b1) u b2) u b3) l := rfl

theorem boot_stepRun (p o u : String) (b1 b2 b3 : Statement) :
    ∃ r, ∀ g : FGraph,
      ontoMapPredicate (gAdd (gAdd (gAdd g u b1) u b2) u b3) u u p (.str o) =
        stepRun g r := by
  obtain ⟨r, hr⟩ := ontoMapPredicate_stepRun u u p (.str o)
  cases r with
  | error e => exact ⟨.error e, fun g => hr _⟩
  | ok l =>
    refine ⟨.ok ([(u, b1), (u, b2), (u, b3)] ++ l), fun g => ?_⟩
    rw [hr, stepRun, stepRun, gAddList_boot3]

theorem stepP (c : Prop) [Decidable c] (p o u : String) (b1 b2 b3 : Statement) :
    ∃ r, ∀ g : FGraph,
      (if c then
        ontoMapPredicate (gAdd (gAdd (gAdd g u b1) u b2) u b3) u u p (.str o)
      else .ok g) = stepRun g r := by
  by_cases hc : c
  · simp only [hc, if_true]
    exact boot_stepRun p o u b1 b2 b3
  · exact ⟨.ok [], fun g => by simp only [hc, if_false]; rfl⟩

theorem setMetadata_stepRun (base : String) (t : String × String × String) :
    ∃ r, ∀ g : FGraph, setMetadata base g t = stepRun g r := by
  obtain ⟨s, p, o⟩ := t
  simp only [setMetadata]
  exact stepRun_comp (stepP _ p o _ _ _ _)
    (stepRun_comp (stepP _ p o _ _ _ _)
      (stepRun_comp (stepP _ p o _ _ _ _) (stepP _ p o _ _ _ _)))

/-! ## Claim C7: the five-statement catalog context -/

/-- Claim C7: with base URI `example.org` (schemed `http://example.org` by
`FAIRGraph.__init__`) and a single ingested triple for catalog `cat1` with
title `"Demo"`, the resulting graph holds exactly one context — the
catalog's, keyed by `{base}/catalog/cat1` — containing exactly the five
statements rdf:type = dcat:Catalog, dct:language = lang:en,
dct:identifier = `"cat1"`, dct:title = `"Demo"` and rdfs:label = `"Demo"`,
no more and no fewer. -/
theorem c7_catalog_context_five_statements :
    setMetadata "http://example.org" [] ("catalog/cat1", "title", "Demo") =
      .ok [("http://example.org/catalog/cat1",
        [("http://example.org/catalog/cat1", rdfType, .uriRef (dcat "Catalog")),
         ("http://example.org/catalog/cat1", dct "language", .uriRef langEn),
         ("http://example.org/catalog/cat1", dct "identifier", .lit "cat1" (xsd "string")),
         ("http://example.org/catalog/cat1", dct "title", .lit "Demo" (xsd "string")),
         ("http://example.org/catalog/cat1", rdfs "label", .lit "Demo" (xsd "string"))])] := by
  rfl

/-! ## Claim C8: ingesting the same triple twice is a no-op -/

/-- Claim C8: if ingesting triple `t` into graph state `g` succeeds with
state `g2`, ingesting `t` again into `g2` succeeds and leaves `g2` unchanged
(so in particular every context's statement set is unchanged): statement
accumulation has set semantics. -/
theorem c8_ingest_idempotent (base : String) (t : String × String × String)
    (g g2 : FGraph) (h : setMetadata base g t = .ok g2) :
    setMetadata base g2 t = .ok g2 := by
  obtain ⟨r, hr⟩ := setMetadata_stepRun base t
  rw [hr] at h ⊢
  cases r with
  | error e => exact absurd h (by simp [stepRun])
  | ok l =>
    simp only [stepRun] at h ⊢
    injection h with h2
    subst h2
    exact congrArg Except.ok (gAddList_idem g l)

/-- Witness for C8 at a concrete input: the once-ingested catalog context
is reproduced exactly by a second ingestion of the same triple. -/
theorem c8_ingest_idempotent_witness :
    setMetadata "http://example.org"
      [("http://example.org/catalog/c9",
        [("http://example.org/catalog/c9", rdfType, .uriRef (dcat "Catalog")),
         ("http://example.org/catalog/c9", dct "language", .uriRef langEn),
         ("http://example.org/catalog/c9", dct "identifier", .lit "c9" (xsd "string")),
         ("http://example.org/catalog/c9", dct "title", .lit "T9" (xsd "string")),
         ("http://example.org/catalog/c9", rdfs "label", .lit "T9" (xsd "string"))])]
      ("catalog/c9", "title", "T9") =
    .ok [("http://example.org/catalog/c9",
        [("http://example.org/catalog/c9", rdfType, .uriRef (dcat "Catalog")),
         ("http://example.org/catalog/c9", dct "language", .uriRef langEn),
         ("http://example.org/catalog/c9", dct "identifier", .lit "c9" (xsd "string")),
         ("http://example.org/catalog/c9", dct "title", .lit "T9" (xsd "string")),
         ("http://example.org/catalog/c9", rdfs "label", .lit "T9" (xsd "string"))])] :=
  c8_ingest_idempotent "http://example.org" ("catalog/c9", "title", "T9") [] _ (by rfl)

/-! ## Claim C10: a triple with an unmatched section identifier is dropped -/

/-- Claim C10: ingesting a triple whose section identifier is not exactly
`fdp` and contains none of the substrings `catalog/`, `dataset/`,
`distribution/` leaves the graph state — hence every context — unchanged
and raises no error. -/
theorem c10_unmatched_section_noop (base : String) (g : FGraph) (s p o : String)
    (h1 : s ≠ "fdp") (h2 : inStr "catalog/" s = false)
    (h3 : inStr "dataset/" s = false) (h4 : inStr "distribution/" s = false) :
    setMetadata base g (s, p, o) = .ok g := by
  simp [setMetadata, h1, h2, h3, h4]

/-- Witness for C10: a bare `catalog` header (accepted by the
mandatory-section check, which marks the kind as seen) matches none of the
four dispatch tests, so its triples are silently dropped. -/
theorem c10_unmatched_section_noop_witness :
    setMetadata "http://example.org" [] ("catalog", "title", "Demo") = .ok [] :=
  c10_unmatched_section_noop "http://example.org" [] "catalog" "title" "Demo"
    (by decide) (by rfl) (by rfl) (by rfl)

/-! ## Claim C6: URI rewriting for id fields -/

/-- The domain of the `_ONTO_MAP_PREDICATE` table. -/
theorem ontoMap_domain {p : String} {pairs : List (String × String)}
    (h : ontoMap p = some pairs) :
    p = "fdp_id" ∨ p = "catalog_id" ∨ p = "dataset_id" ∨ p = "distribution_id" ∨
    p = "title" ∨ p = "description" ∨ p = "publisher" ∨ p = "issued" ∨
    p = "modified" ∨ p = "version" ∨ p = "license" ∨ p = "theme" ∨
    p = "theme_taxonomy" ∨ p = "lading_page" ∨ p = "keyword" ∨ p = "access_url" ∨
    p = "download_url" ∨ p = "media_type" := by
  by_contra hn
  push_neg at hn
  obtain ⟨n1, n2, n3, n4, n5, n6, n7, n8, n9, n10, n11, n12, n13, n14, n15, n16, n17, n18⟩ := hn
  unfold ontoMap at h
  rw [if_neg n1, if_neg n2, if_neg n3, if_neg n4, if_neg n5, if_neg n6, if_neg n7,
      if_neg n8, if_neg n9, if_neg n10, if_neg n11, if_neg n12, if_neg n13, if_neg n14,
      if_neg n15, if_neg n16, if_neg n17, if_neg n18] at h
  exact Option.noConfusion h

/-- The datatype of a table pair is among the mapped datatypes of the field. -/
theorem dtype_mem {l : List (String × String)} {mp dt : String} (h : (mp, dt) ∈ l) :
    dt ∈ l.map Prod.snd :=
  List.mem_map.mpr ⟨(mp, dt), h, rfl⟩

set_option maxHeartbeats 1600000 in
/-- Claim C6: for every mapped field with a URI datatype, the ingested value
is rewritten to the relative child path `../{prefix-before-underscore}/{v}`
exactly when the field name contains the `_id` suffix (and the prefix is the
child kind: `catalog`, `dataset`, `distribution`); a URI-typed field without
the suffix is wrapped unchanged; and the distribution context URI itself is
the absolute `{base}/distribution/{id}`. -/
theorem c6_uri_rewriting :
    (∀ (p : String) (pairs : List (String × String)) (mp : String),
       ontoMap p = some pairs → (mp, xsd "anyURI") ∈ pairs → inStr "_id" p = true →
       ∀ (v : String) (g : FGraph) (ctx s : String),
         ontoMapPredicate g ctx s p (.str v) =
           .ok (gAdd g ctx (s, mp,
             .uriRef ("../" ++ (strSplit cUnder p).headD "" ++ "/" ++ v)))) ∧
    ((strSplit cUnder "catalog_id").headD "" = "catalog" ∧
     (strSplit cUnder "dataset_id").headD "" = "dataset" ∧
     (strSplit cUnder "distribution_id").headD "" = "distribution") ∧
    (∀ base id, distURI base id = base ++ "/distribution/" ++ id) ∧
    (∀ (p : String) (pairs : List (String × String)) (mp : String),
       ontoMap p = some pairs → (mp, xsd "anyURI") ∈ pairs → inStr "_id" p = false →
       ∀ (v : String) (g : FGraph) (ctx s : String),
         ontoMapPredicate g ctx s p (.str v) = .ok (gAdd g ctx (s, mp, .uriRef v))) := by
  refine ⟨?_, ⟨by decide, by decide, by decide⟩, fun base id => rfl, ?_⟩ <;>
  · intro p pairs mp hmap hmem hid v g ctx s
    rcases ontoMap_domain hmap with
      rfl | rfl | rfl | rfl | rfl | rfl | rfl | rfl | rfl | rfl | rfl | rfl | rfl | rfl |
      rfl | rfl | rfl | rfl <;>
    (injection hmap with hpairs
     subst hpairs
     first
     | exact absurd hid (by decide)
     | exact absurd (dtype_mem hmem) (by decide)
     | (have h := List.mem_singleton.mp hmem
        injection h with hmp hdt
        subst hmp
        rfl))

/-- Witness for C6: a `distribution_id` value `xyz` becomes the relative
reference `../distribution/xyz`, a suffix-free URI field (`license`) is
wrapped unchanged, and `distURI` yields the absolute context URI. -/
theorem c6_uri_rewriting_witness :
    ontoMapPredicate [] "u" "u" "distribution_id" (.str "xyz") =
      .ok [("u", [("u", dcat "distribution", .uriRef "../distribution/xyz")])] ∧
    distURI "http://example.org" "xyz" = "http://example.org/distribution/xyz" ∧
    ontoMapPredicate [] "u" "u" "license" (.str "http://l") =
      .ok [("u", [("u", dct "license", .uriRef "http://l")])] :=
  ⟨(c6_uri_rewriting.1 "distribution_id" [(dcat "distribution", xsd "anyURI")]
      (dcat "distribution") rfl (by decide) (by decide) "xyz" [] "u" "u").trans (by rfl),
   (c6_uri_rewriting.2.2.1 "http://example.org" "xyz").trans (by rfl),
   (c6_uri_rewriting.2.2.2 "license" [(dct "license", xsd "anyURI")]
      (dct "license") rfl (by decide) (by decide) "http://l" [] "u" "u").trans (by rfl)⟩

/-! ## Claim C5: date-format validation -/

set_option maxHeartbeats 1600000 in
/-- Claim C5 (amended): for a date-typed field, ingest fails exactly when
the value fails `strptime` with format `%Y-%m-%d` — four year digits, one or
two month and day digits, calendar validity included — and the raised error
is the raw `ValueError`, whose message does not name the field (nor, for
calendar-range failures, the value); `2020-02-29` parses, `2020-02-30` is
rejected as `day is out of range for month`. -/
theorem c5_date_validation :
    (∀ (p mp : String), ontoMap p = some [(mp, xsd "date")] →
       ∀ (v : String) (g : FGraph) (ctx s : String),
         ontoMapPredicate g ctx s p (.str v) =
           (match strptimeYmd v with
            | some msg => .error msg
            | none => .ok (gAdd g ctx (s, mp, .lit v (xsd "date"))))) ∧
    strptimeYmd "2020-02-29" = none ∧
    strptimeYmd "2020-02-30" = some "day is out of range for month" := by
  refine ⟨?_, rfl, rfl⟩
  intro p mp hmap v g ctx s
  unfold ontoMapPredicate
  rw [hmap]
  have hne : (xsd "date" = xsd "anyURI") = False := eq_false (by decide)
  simp only [ontoLoop, pyStr, eq_self_iff_true, if_true, hne, if_false]

/-- Witness for C5: the `issued` field is date-typed and a valid date is
stored as a date literal. -/
theorem c5_date_validation_witness :
    ontoMapPredicate [] "u" "u" "issued" (.str "2015-11-24") =
      .ok [("u", [("u", dct "issued", .lit "2015-11-24" (xsd "date"))])] :=
  (c5_date_validation.1 "issued" (dct "issued") rfl "2015-11-24" [] "u" "u").trans (by rfl)

/-- Counterexample to C5 as stated: `2020-2-3` is not in the exact
`YYYY-MM-DD` format yet ingests successfully (Python accepts one-digit month
and day), and the error raised for `2020-02-30` mentions neither the field
name nor the offending value. -/
theorem c5_counterexample :
    isExactYMD "2020-2-3" = false ∧
    ontoMapPredicate [] "u" "u" "issued" (.str "2020-2-3") =
      .ok [("u", [("u", dct "issued", .lit "2020-2-3" (xsd "date"))])] ∧
    ontoMapPredicate [] "u" "u" "issued" (.str "2020-02-30") =
      .error "day is out of range for month" ∧
    inStr "issued" "day is out of range for month" = false ∧
    inStr "2020-02-30" "day is out of range for month" = false :=
  ⟨rfl, rfl, rfl, rfl, rfl⟩

/-! ## Lemmas: the id-registration loop `regIds` -/

theorem regIds_ok_eq :
    ∀ (l uniq u2 : List String), regIds l uniq = .ok u2 → u2 = uniq ++ l := by
  intro l
  induction l with
  | nil =>
    intro uniq u2 h
    injection h with h2
    subst h2
    simp
  | cons i rest ih =>
    intro uniq u2 h
    unfold regIds at h
    split at h
    · exact Except.noConfusion h
    · have h2 := ih (uniq ++ [i]) u2 h
      subst h2
      simp

theorem regIds_ok_nodup :
    ∀ (l uniq u2 : List String), uniq.Nodup → regIds l uniq = .ok u2 → u2.Nodup := by
  intro l
  induction l with
  | nil =>
    intro uniq u2 hnd h
    injection h with h2
    subst h2
    exact hnd
  | cons i rest ih =>
    intro uniq u2 hnd h
    unfold regIds at h
    split at h
    · exact Except.noConfusion h
    · next hc =>
      have hni : i ∉ uniq := by simpa using hc
      refine ih (uniq ++ [i]) u2 ?_ h
      rw [List.nodup_append]
      refine ⟨hnd, List.nodup_singleton i, ?_⟩
      intro a ha hb
      rw [List.mem_singleton] at hb
      subst hb
      exact hni ha

theorem regIds_err_dup :
    ∀ (l uniq : List String) (e : ValError), regIds l uniq = .error e →
      ∃ i, e = .duplicateResourceId i ∧ i ∈ l ∧ (i ∈ uniq ∨ 2 ≤ l.count i) := by
  intro l
  induction l with
  | nil => intro uniq e h; exact Except.noConfusion h
  | cons i rest ih =>
    intro uniq e h
    unfold regIds at h
    split at h
    · next hc =>
      injection h with h2
      refine ⟨i, h2.symm, List.mem_cons_self i rest, Or.inl ?_⟩
      simpa using hc
    · obtain ⟨j, he, hjl, hj⟩ := ih (uniq ++ [i]) e h
      refine ⟨j, he, List.mem_cons_of_mem i hjl, ?_⟩
      rcases hj with hj | hj
      · rcases List.mem_append.mp hj with hj | hj
        · exact Or.inl hj
        · rw [List.mem_singleton] at hj
          subst hj
          refine Or.inr ?_
          have h1 : 1 ≤ rest.count j := List.count_pos_iff.mpr hjl
          have h2 : (j :: rest).count j = rest.count j + 1 := List.count_cons_self j rest
          omega
      · refine Or.inr ?_
        have h2 : rest.count j ≤ (i :: rest).count j := by
          rw [List.count_cons]
          omega
        omega

/-! ## Lemmas: the required-field presence check -/

theorem presentCheck_ok (sh : String) (fields : List (String × Value)) (f : String)
    (u : Unit) (h : presentCheck sh fields f = .ok u) : fieldOk fields f = true := by
  unfold presentCheck at h
  unfold fieldOk
  split at h
  · next hio =>
    rw [if_pos hio]
    split at h
    · next a b heq =>
      split at h
      · next hg => exact hg
      · exact Except.noConfusion h
    · exact Except.noConfusion h
  · next hio =>
    rw [if_neg hio]
    split at h
    · next hg => exact hg
    · exact Except.noConfusion h

theorem fieldOk_of_not_err (sh : String) (fields : List (String × Value)) (f : String)
    (hne : ∀ e, presentCheck sh fields f ≠ .error e) : fieldOk fields f = true := by
  cases hpc : presentCheck sh fields f with
  | error e => exact absurd hpc (hne e)
  | ok u => exact presentCheck_ok sh fields f u hpc

theorem presentCheck_err_missing (sh : String) (fields : List (String × Value))
    (f f2 s2 : String) (h : presentCheck sh fields f = .error (.missingField f2 s2)) :
    f2 = f ∧ s2 = sh ∧ fieldOk fields f = false := by
  unfold presentCheck at h
  unfold fieldOk
  split at h
  · next hio =>
    rw [if_pos hio]
    split at h
    · next a b heq =>
      split at h
      · exact Except.noConfusion h
      · next hg =>
        injection h with h3
        injection h3 with h4 h5
        exact ⟨h4.symm, h5.symm, by simpa using hg⟩
    · injection h with h3
      exact ValError.noConfusion h3
  · next hio =>
    rw [if_neg hio]
    split at h
    · exact Except.noConfusion h
    · next hg =>
      injection h with h3
      injection h3 with h4 h5
      exact ⟨h4.symm, h5.symm, by simpa using hg⟩

theorem presentCheck_err_not_dup (sh : String) (fields : List (String × Value))
    (f i : String) (h : presentCheck sh fields f = .error (.duplicateResourceId i)) :
    False := by
  unfold presentCheck at h
  split at h
  · split at h
    · split at h
      · exact Except.noConfusion h
      · injection h with h3
        exact ValError.noConfusion h3
    · injection h with h3
      exact ValError.noConfusion h3
  · split at h
    · exact Except.noConfusion h
    · injection h with h3
      exact ValError.noConfusion h3

/-! ## Lemmas: the per-section required-field loop `checkFields` -/

theorem secDeclIds_cons_id (fields : List (String × Value)) (f : String)
    (rest : List String) (v : Value) (hc : idFields.contains f = true)
    (hg : fieldsGet fields f = some v) :
    secDeclIds fields (f :: rest) = arrfy v ++ secDeclIds fields rest := by
  have h1 : secDeclIds fields (f :: rest) =
      (if idFields.contains f = true then
        match fieldsGet fields f with
        | some v2 => arrfy v2
        | none => []
       else []) ++ secDeclIds fields rest := rfl
  rw [h1, if_pos hc, hg]

theorem secDeclIds_cons_nonid (fields : List (String × Value)) (f : String)
    (rest : List String) (hc : idFields.contains f = false) :
    secDeclIds fields (f :: rest) = secDeclIds fields rest := by
  have h1 : secDeclIds fields (f :: rest) =
      (if idFields.contains f = true then
        match fieldsGet fields f with
        | some v2 => arrfy v2
        | none => []
       else []) ++ secDeclIds fields rest := rfl
  rw [h1, if_neg (by rw [hc]; exact Bool.false_ne_true), List.nil_append]

theorem checkFields_ok_all (sh : String) (fields : List (String × Value)) :
    ∀ (reqs uniq u2 : List String), checkFields sh fields reqs uniq = .ok u2 →
      ∀ f ∈ reqs, fieldOk fields f = true := by
  intro reqs
  induction reqs with
  | nil => intro uniq u2 h f hf; simp at hf
  | cons f0 rest ih =>
    intro uniq u2 h f hf
    simp only [checkFields] at h
    split at h
    · exact Except.noConfusion h
    · next u hpc =>
      rcases List.mem_cons.mp hf with rfl | hf2
      · exact presentCheck_ok sh fields f u hpc
      · split at h
        · split at h
          · exact Except.noConfusion h
          · split at h
            · exact Except.noConfusion h
            · exact ih _ _ h f hf2
        · exact ih _ _ h f hf2

theorem checkFields_ok_state (sh : String) (fields : List (String × Value)) :
    ∀ (reqs uniq u2 : List String), checkFields sh fields reqs uniq = .ok u2 →
      u2 = uniq ++ secDeclIds fields reqs ∧ (uniq.Nodup → u2.Nodup) := by
  intro reqs
  induction reqs with
  | nil =>
    intro uniq u2 h
    injection h with h2
    subst h2
    exact ⟨by simp [secDeclIds], fun hnd => hnd⟩
  | cons f0 rest ih =>
    intro uniq u2 h
    simp only [checkFields] at h
    split at h
    · exact Except.noConfusion h
    · next u hpc =>
      split at h
      · next hc =>
        split at h
        · exact Except.noConfusion h
        · next v hg =>
          split at h
          · exact Except.noConfusion h
          · next u3 hreg =>
            obtain ⟨hu3, hnd3⟩ :
                u3 = uniq ++ arrfy v ∧ (uniq.Nodup → u3.Nodup) :=
              ⟨regIds_ok_eq _ _ _ hreg, fun hnd => regIds_ok_nodup _ _ _ hnd hreg⟩
            obtain ⟨he, hn⟩ := ih _ _ h
            subst he
            subst hu3
            refine ⟨?_, fun hnd => hn (hnd3 hnd)⟩
            rw [secDeclIds_cons_id fields f0 rest v hc hg, List.append_assoc]
      · next hc =>
        have hc2 : idFields.contains f0 = false := by simpa using hc
        obtain ⟨he, hn⟩ := ih _ _ h
        subst he
        exact ⟨by rw [secDeclIds_cons_nonid fields f0 rest hc2], hn⟩

theorem checkFields_err_missing (sh : String) (fields : List (String × Value)) :
    ∀ (reqs uniq : List String) (f2 s2 : String),
      checkFields sh fields reqs uniq = .error (.missingField f2 s2) →
      s2 = sh ∧ f2 ∈ reqs ∧ fieldOk fields f2 = false := by
  intro reqs
  induction reqs with
  | nil => intro uniq f2 s2 h; exact Except.noConfusion h
  | cons f0 rest ih =>
    intro uniq f2 s2 h
    simp only [checkFields] at h
    split at h
    · next e hpc =>
      injection h with h2
      subst h2
      obtain ⟨hf, hs, hok⟩ := presentCheck_err_missing sh fields f0 f2 s2 hpc
      rw [hf]
      exact ⟨hs, List.mem_cons_self f0 rest, hok⟩
    · split at h
      · split at h
        · injection h with h2
          exact ValError.noConfusion h2
        · split at h
          · next e hreg =>
            injection h with h2
            subst h2
            obtain ⟨j, hej, -, -⟩ := regIds_err_dup _ _ _ hreg
            exact ValError.noConfusion hej
          · obtain ⟨hs, hf, hok⟩ := ih _ _ _ h
            exact ⟨hs, List.mem_cons_of_mem f0 hf, hok⟩
      · obtain ⟨hs, hf, hok⟩ := ih _ _ _ h
        exact ⟨hs, List.mem_cons_of_mem f0 hf, hok⟩

theorem checkFields_err_dup (sh : String) (fields : List (String × Value)) :
    ∀ (reqs uniq : List String) (i : String),
      checkFields sh fields reqs uniq = .error (.duplicateResourceId i) →
      (i ∈ uniq ∧ i ∈ secDeclIds fields reqs) ∨
        2 ≤ (secDeclIds fields reqs).count i := by
  intro reqs
  induction reqs with
  | nil => intro uniq i h; exact Except.noConfusion h
  | cons f0 rest ih =>
    intro uniq i h
    simp only [checkFields] at h
    split at h
    · next e hpc =>
      injection h with h2
      subst h2
      exact absurd hpc (fun hp => presentCheck_err_not_dup sh fields f0 i hp)
    · split at h
      · next hc =>
        split at h
        · injection h with h2
          exact ValError.noConfusion h2
        · next v hg =>
          rw [secDeclIds_cons_id fields f0 rest v hc hg]
          split at h
          · next e hreg =>
            injection h with h2
            subst h2
            obtain ⟨j, hej, hjmem, hj⟩ := regIds_err_dup _ _ _ hreg
            injection hej with hji
            subst hji
            rcases hj with hj | hj
            · exact Or.inl ⟨hj, List.mem_append_left _ hjmem⟩
            · refine Or.inr ?_
              rw [List.count_append]
              omega
          · next u3 hreg =>
            have hu3 : u3 = uniq ++ arrfy v := regIds_ok_eq _ _ _ hreg
            subst hu3
            rcases ih _ _ h with ⟨hiu, hir⟩ | hic
            · rcases List.mem_append.mp hiu with hiu | hiu
              · exact Or.inl ⟨hiu, List.mem_append_right _ hir⟩
              · refine Or.inr ?_
                rw [List.count_append]
                have h1 : 1 ≤ (arrfy v).count i := List.count_pos_iff.mpr hiu
                have h2 : 1 ≤ (secDeclIds fields rest).count i :=
                  List.count_pos_iff.mpr hir
                omega
            · refine Or.inr ?_
              rw [List.count_append]
              omega
      · next hc =>
        have hc2 : idFields.contains f0 = false := by simpa using hc
        rw [secDeclIds_cons_nonid fields f0 rest hc2]
        exact ih _ _ h

theorem checkFields_err_not_other (sh : String) (fields : List (String × Value)) :
    ∀ (reqs uniq : List String) (e : ValError),
      checkFields sh fields reqs uniq = .error e →
      (∃ f2 s2, e = .missingField f2 s2) ∨ (∃ i, e = .duplicateResourceId i) ∨
        (∃ k2, e = .keyError k2) ∨ e = .valueError := by
  intro reqs
  induction reqs with
  | nil => intro uniq e h; exact Except.noConfusion h
  | cons f0 rest ih =>
    intro uniq e h
    simp only [checkFields] at h
    split at h
    · next e2 hpc =>
      injection h with h2
      subst h2
      revert hpc
      unfold presentCheck
      split
      · split
        · split
          · intro hx; exact Except.noConfusion hx
          · intro hx
            injection hx with h3
            exact Or.inl ⟨_, _, h3.symm⟩
        · intro hx
          injection hx with h3
          exact Or.inr (Or.inr (Or.inr h3.symm))
      · split
        · intro hx; exact Except.noConfusion hx
        · intro hx
          injection hx with h3
          exact Or.inl ⟨_, _, h3.symm⟩
    · split at h
      · split at h
        · injection h with h2
          exact Or.inr (Or.inr (Or.inl ⟨_, h2.symm⟩))
        · split at h
          · next e2 hreg =>
            injection h with h2
            subst h2
            obtain ⟨j, hej, -, -⟩ := regIds_err_dup _ _ _ hreg
            exact Or.inr (Or.inl ⟨j, hej⟩)
          · exact ih _ _ h
      · exact ih _ _ h

/-! ## Lemmas: the cross-reference check `checkRefs` -/

theorem refBranch_err_shape (cond : Bool) (fields : List (String × Value))
    (secs : List (String × SecEntry)) (fname parent child ckind : String)
    (e : ValError)
    (h : (if cond then
            match fieldsGet fields fname with
            | none => .error (.keyError fname)
            | some v =>
              if entryEqList (secGet secs ckind) (arrfy v) then .ok ()
              else .error (.danglingReference parent fname child)
          else (.ok () : Except ValError Unit)) = .error e) :
    (∃ k2, e = .keyError k2) ∨ ∃ a b c, e = .danglingReference a b c := by
  split at h
  · split at h
    · injection h with h2
      exact Or.inl ⟨_, h2.symm⟩
    · split at h
      · exact Except.noConfusion h
      · injection h with h2
        exact Or.inr ⟨_, _, _, h2.symm⟩
  · exact Except.noConfusion h

theorem checkRefs_err_shape (sh : String) (fields : List (String × Value))
    (secs : List (String × SecEntry)) (e : ValError)
    (h : checkRefs sh fields secs = .error e) :
    (∃ k2, e = .keyError k2) ∨ ∃ a b c, e = .danglingReference a b c := by
  unfold checkRefs at h
  split at h
  · next e2 heq =>
    injection h with h2
    subst h2
    exact refBranch_err_shape _ fields secs _ _ _ _ _ heq
  · split at h
    · next e2 heq =>
      injection h with h2
      subst h2
      exact refBranch_err_shape _ fields secs _ _ _ _ _ heq
    · exact refBranch_err_shape _ fields secs _ _ _ _ _ h

theorem checkRefs_ok_fdp (sh : String) (fields : List (String × Value))
    (secs : List (String × SecEntry)) (hf : inStr "fdp" sh = true)
    (h : checkRefs sh fields secs = .ok ()) :
    ∃ v, fieldsGet fields "catalog_id" = some v ∧
      entryEqList (secGet secs "catalog") (arrfy v) = true := by
  unfold checkRefs at h
  rw [if_pos hf] at h
  split at h
  · exact Except.noConfusion h
  · next u hc1 =>
    split at hc1
    · exact Except.noConfusion hc1
    · next v hg =>
      split at hc1
      · next hentry => exact ⟨v, hg, hentry⟩
      · exact Except.noConfusion hc1

theorem checkRefs_ok_cat (sh : String) (fields : List (String × Value))
    (secs : List (String × SecEntry)) (hf : inStr "catalog" sh = true)
    (h : checkRefs sh fields secs = .ok ()) :
    ∃ v, fieldsGet fields "dataset_id" = some v ∧
      entryEqList (secGet secs "dataset") (arrfy v) = true := by
  unfold checkRefs at h
  split at h
  · exact Except.noConfusion h
  · rw [if_pos hf] at h
    split at h
    · exact Except.noConfusion h
    · next u hc2 =>
      split at hc2
      · exact Except.noConfusion hc2
      · next v hg =>
        split at hc2
        · next hentry => exact ⟨v, hg, hentry⟩
        · exact Except.noConfusion hc2

theorem checkRefs_ok_dat (sh : String) (fields : List (String × Value))
    (secs : List (String × SecEntry)) (hf : inStr "dataset" sh = true)
    (h : checkRefs sh fields secs = .ok ()) :
    ∃ v, fieldsGet fields "distribution_id" = some v ∧
      entryEqList (secGet secs "distribution") (arrfy v) = true := by
  unfold checkRefs at h
  split at h
  · exact Except.noConfusion h
  · split at h
    · exact Except.noConfusion h
    · rw [if_pos hf] at h
      split at h
      · exact Except.noConfusion h
      · next v hg =>
        split at h
        · next hentry => exact ⟨v, hg, hentry⟩
        · exact Except.noConfusion h

/-! ## Lemmas: error shapes of the other validation phases -/

theorem collectLoop_err_shape :
    ∀ (d : Doc) (secs : List (String × SecEntry)) (e : ValError),
      collectLoop d secs = .error e → e = .attributeError ∨ e = .valueError := by
  intro d
  induction d with
  | nil => intro secs e h; exact Except.noConfusion h
  | cons sec rest ih =>
    intro secs e h
    obtain ⟨sh, flds⟩ := sec
    simp only [collectLoop] at h
    repeat' split at h
    all_goals
      first
      | exact Except.noConfusion h
      | (injection h with h2; exact Or.inl h2.symm)
      | (injection h with h2; exact Or.inr h2.symm)
      | exact ih _ _ h

theorem checkMandatory_err_shape :
    ∀ (secs : List (String × SecEntry)) (e : ValError),
      checkMandatory secs = .error e → ∃ k2, e = .missingSection k2 := by
  intro secs
  induction secs with
  | nil => intro e h; exact Except.noConfusion h
  | cons entry rest ih =>
    intro e h
    obtain ⟨k0, e0⟩ := entry
    simp only [checkMandatory] at h
    split at h
    · exact ih _ h
    · injection h with h2
      exact ⟨k0, h2.symm⟩

/-! ## Lemmas: the main validation loop -/

theorem validateLoop_ok_mem :
    ∀ (l : Doc) (secs : List (String × SecEntry)) (uniq : List String),
      validateLoop secs l uniq = .ok () →
      ∀ sh flds, (sh, flds) ∈ l →
        ∃ reqs u1 u2, requiredMeta (kindOf sh) = some reqs ∧
          checkFields sh flds reqs u1 = .ok u2 ∧ checkRefs sh flds secs = .ok () := by
  intro l
  induction l with
  | nil => intro secs uniq h sh flds hmem; simp at hmem
  | cons sec rest ih =>
    intro secs uniq h sh flds hmem
    obtain ⟨sh0, flds0⟩ := sec
    simp only [validateLoop] at h
    split at h
    · exact Except.noConfusion h
    · next reqs hreq =>
      split at h
      · exact Except.noConfusion h
      · next u2 hcf =>
        split at h
        · exact Except.noConfusion h
        · next u hcr =>
          rcases List.mem_cons.mp hmem with heq | hmem2
          · injection heq with heq1 heq2
            subst heq1
            subst heq2
            cases u
            exact ⟨reqs, uniq, u2, hreq, hcf, hcr⟩
          · exact ih secs u2 h sh flds hmem2

theorem validateLoop_err_missing :
    ∀ (l : Doc) (secs : List (String × SecEntry)) (uniq : List String) (f2 s2 : String),
      validateLoop secs l uniq = .error (.missingField f2 s2) →
      ∃ flds reqs, (s2, flds) ∈ l ∧ requiredMeta (kindOf s2) = some reqs ∧
        f2 ∈ reqs ∧ fieldOk flds f2 = false := by
  intro l
  induction l with
  | nil => intro secs uniq f2 s2 h; exact Except.noConfusion h
  | cons sec rest ih =>
    intro secs uniq f2 s2 h
    obtain ⟨sh0, flds0⟩ := sec
    simp only [validateLoop] at h
    split at h
    · injection h with h2
      exact ValError.noConfusion h2
    · next reqs hreq =>
      split at h
      · next e hcf =>
        injection h with h2
        subst h2
        obtain ⟨hs, hf2, hok⟩ := checkFields_err_missing sh0 flds0 reqs uniq f2 s2 hcf
        subst hs
        exact ⟨flds0, reqs, List.mem_cons_self _ rest, hreq, hf2, hok⟩
      · next u2 hcf =>
        split at h
        · next e hcr =>
          injection h with h2
          subst h2
          rcases checkRefs_err_shape sh0 flds0 secs _ hcr with ⟨k2, hk⟩ | ⟨a, b, c, hk⟩
          · exact ValError.noConfusion hk
          · exact ValError.noConfusion hk
        · obtain ⟨flds, reqs2, hm, hr, hf2, hok⟩ := ih secs u2 f2 s2 h
          exact ⟨flds, reqs2, List.mem_cons_of_mem _ hm, hr, hf2, hok⟩

theorem declaredIds_cons_some (sh0 : String) (flds0 : List (String × Value))
    (rest : Doc) (reqs : List String) (h : requiredMeta (kindOf sh0) = some reqs) :
    declaredIds ((sh0, flds0) :: rest) = secDeclIds flds0 reqs ++ declaredIds rest := by
  simp [declaredIds, h]

theorem validateLoop_err_dup :
    ∀ (l : Doc) (secs : List (String × SecEntry)) (uniq : List String) (i : String),
      validateLoop secs l uniq = .error (.duplicateResourceId i) →
      (i ∈ uniq ∧ i ∈ declaredIds l) ∨ 2 ≤ (declaredIds l).count i := by
  intro l
  induction l with
  | nil => intro secs uniq i h; exact Except.noConfusion h
  | cons sec rest ih =>
    intro secs uniq i h
    obtain ⟨sh0, flds0⟩ := sec
    simp only [validateLoop] at h
    split at h
    · injection h with h2
      exact ValError.noConfusion h2
    · next reqs hreq =>
      rw [declaredIds_cons_some sh0 flds0 rest reqs hreq]
      split at h
      · next e hcf =>
        injection h with h2
        subst h2
        rcases checkFields_err_dup sh0 flds0 reqs uniq i hcf with ⟨hu, hd⟩ | hc
        · exact Or.inl ⟨hu, List.mem_append_left _ hd⟩
        · refine Or.inr ?_
          rw [List.count_append]
          omega
      · next u2 hcf =>
        split at h
        · next e hcr =>
          injection h with h2
          subst h2
          rcases checkRefs_err_shape sh0 flds0 secs _ hcr with ⟨k2, hk⟩ | ⟨a, b, c, hk⟩
          · exact ValError.noConfusion hk
          · exact ValError.noConfusion hk
        · obtain ⟨hu2, -⟩ := checkFields_ok_state sh0 flds0 reqs uniq u2 hcf
          subst hu2
          rcases ih secs _ i h with ⟨hu, hd⟩ | hc
          · rcases List.mem_append.mp hu with hu | hu
            · exact Or.inl ⟨hu, List.mem_append_right _ hd⟩
            · refine Or.inr ?_
              rw [List.count_append]
              have h1 : 1 ≤ (secDeclIds flds0 reqs).count i := List.count_pos_iff.mpr hu
              have h2 : 1 ≤ (declaredIds rest).count i := List.count_pos_iff.mpr hd
              omega
          · refine Or.inr ?_
            rw [List.count_append]
            omega

theorem validateLoop_no_dup_of_nodup
    (l : Doc) (secs : List (String × SecEntry)) (uniq : List String)
    (hnd : (uniq ++ declaredIds l).Nodup) (i : String) :
    validateLoop secs l uniq ≠ .error (.duplicateResourceId i) := by
  intro h
  rcases validateLoop_err_dup l secs uniq i h with ⟨hu, hd⟩ | hc
  · exact List.disjoint_of_nodup_append hnd hu hd
  · have hnd2 : (declaredIds l).Nodup := (List.nodup_append.mp hnd).2.1
    have := List.nodup_iff_count_le_one.mp hnd2 i
    omega

theorem validateLoop_ok_nodup :
    ∀ (l : Doc) (secs : List (String × SecEntry)) (uniq : List String),
      uniq.Nodup → validateLoop secs l uniq = .ok () →
      (uniq ++ declaredIds l).Nodup := by
  intro l
  induction l with
  | nil =>
    intro secs uniq hnd h
    simpa [declaredIds] using hnd
  | cons sec rest ih =>
    intro secs uniq hnd h
    obtain ⟨sh0, flds0⟩ := sec
    simp only [validateLoop] at h
    split at h
    · exact Except.noConfusion h
    · next reqs hreq =>
      rw [declaredIds_cons_some sh0 flds0 rest reqs hreq]
      split at h
      · exact Except.noConfusion h
      · next u2 hcf =>
        split at h
        · exact Except.noConfusion h
        · obtain ⟨hu2, hnd2⟩ := checkFields_ok_state sh0 flds0 reqs uniq u2 hcf
          have := ih secs u2 (hnd2 hnd) h
          rw [hu2] at this
          simpa [List.append_assoc] using this

/-! ## Lemmas: the `sections` dict operations and header-id collection -/

theorem secMem_secSet (k k2 : String) (v : SecEntry) :
    ∀ secs, secMem k (secSet secs k2 v) = secMem k secs := by
  intro secs
  induction secs with
  | nil => rfl
  | cons e0 rest ih =>
    obtain ⟨k0, v0⟩ := e0
    show secMem k (if k0 == k2 then (k0, v) :: rest else (k0, v0) :: secSet rest k2 v) =
      secMem k ((k0, v0) :: rest)
    cases hk : k0 == k2
    · rw [if_neg Bool.false_ne_true]
      show ((k0 == k) || secMem k (secSet rest k2 v)) = ((k0 == k) || secMem k rest)
      rw [ih]
    · rw [if_pos rfl]
      rfl

theorem secGet_secSet_self (k : String) (v : SecEntry) :
    ∀ secs, secMem k secs = true → secGet (secSet secs k v) k = v := by
  intro secs
  induction secs with
  | nil => intro hm; exact absurd hm (by simp [secMem])
  | cons e0 rest ih =>
    obtain ⟨k0, v0⟩ := e0
    intro hm
    show secGet (if k0 == k then (k0, v) :: rest else (k0, v0) :: secSet rest k v) k = v
    cases hk : k0 == k
    · rw [if_neg Bool.false_ne_true]
      show (if k0 == k then v0 else secGet (secSet rest k v) k) = v
      rw [if_neg (by rw [hk]; exact Bool.false_ne_true)]
      refine ih ?_
      have hm2 : ((k0 == k) || secMem k rest) = true := hm
      rw [hk] at hm2
      simpa using hm2
    · rw [if_pos rfl]
      show (if k0 == k then v else secGet rest k) = v
      rw [if_pos hk]

theorem secGet_secSet_ne (k2 k : String) (v : SecEntry) (hne : (k2 == k) = false) :
    ∀ secs, secGet (secSet secs k2 v) k = secGet secs k := by
  intro secs
  induction secs with
  | nil => rfl
  | cons e0 rest ih =>
    obtain ⟨k0, v0⟩ := e0
    show secGet (if k0 == k2 then (k0, v) :: rest else (k0, v0) :: secSet rest k2 v) k =
      secGet ((k0, v0) :: rest) k
    cases hk : k0 == k2
    · rw [if_neg Bool.false_ne_true]
      show (if k0 == k then v0 else secGet (secSet rest k2 v) k) =
        (if k0 == k then v0 else secGet rest k)
      rw [ih]
    · rw [if_pos rfl]
      have hk0 : k0 = k2 := eq_of_beq hk
      subst hk0
      show (if k0 == k then v else secGet rest k) = (if k0 == k then v0 else secGet rest k)
      rw [if_neg (by rw [hne]; exact Bool.false_ne_true),
          if_neg (by rw [hne]; exact Bool.false_ne_true)]

theorem headerSuffixIds_nil (k : String) : headerSuffixIds [] k = [] := rfl

theorem headerSuffixIds_cons_hit (sh : String) (flds : List (String × Value))
    (rest : Doc) (k s1 rid : String) (hslash : inStr "/" sh = true)
    (hsp : strSplit cSlash sh = [s1, rid]) (hk : (s1 == k) = true) :
    headerSuffixIds ((sh, flds) :: rest) k = rid :: headerSuffixIds rest k := by
  simp [headerSuffixIds, hslash, hsp, hk]

theorem headerSuffixIds_cons_misskind (sh : String) (flds : List (String × Value))
    (rest : Doc) (k s1 rid : String) (hslash : inStr "/" sh = true)
    (hsp : strSplit cSlash sh = [s1, rid]) (hk : (s1 == k) = false) :
    headerSuffixIds ((sh, flds) :: rest) k = headerSuffixIds rest k := by
  simp [headerSuffixIds, hslash, hsp, hk]

theorem headerSuffixIds_cons_noslash (sh : String) (flds : List (String × Value))
    (rest : Doc) (k : String) (hslash : inStr "/" sh = false) :
    headerSuffixIds ((sh, flds) :: rest) k = headerSuffixIds rest k := by
  simp [headerSuffixIds, hslash]

/-- What the collection loop leaves in the `sections` entry of `k`: provided
no bare `k` header occurs, the entry accumulates exactly the `k/id` header
suffixes, in document order. -/
theorem collectLoop_ids (k : String) :
    ∀ (d : Doc) (secs0 secs : List (String × SecEntry)) (l0 : List String),
      collectLoop d secs0 = .ok secs → secMem k secs0 = true →
      secGet secs0 k = .ids l0 →
      d.all (fun sec => !(sec.1 == k)) = true →
      secGet secs k = .ids (l0 ++ headerSuffixIds d k) ∧ secMem k secs = true := by
  intro d
  induction d with
  | nil =>
    intro secs0 secs l0 h hm hg hall
    injection h with h2
    subst h2
    refine ⟨?_, hm⟩
    rw [headerSuffixIds_nil, List.append_nil]
    exact hg
  | cons sec rest ih =>
    intro secs0 secs l0 h hm hg hall
    obtain ⟨sh, flds⟩ := sec
    rw [List.all_cons] at hall
    obtain ⟨hsh1, hrest⟩ := Bool.and_eq_true_iff.mp hall
    have hshk : (sh == k) = false := by simpa using hsh1
    simp only [collectLoop] at h
    set secs1 := if secMem sh secs0 = true then secSet secs0 sh SecEntry.flag else secs0
      with hsecs1
    have hm1 : secMem k secs1 = true := by
      rw [hsecs1]
      split
      · rw [secMem_secSet]; exact hm
      · exact hm
    have hg1 : secGet secs1 k = .ids l0 := by
      rw [hsecs1]
      split
      · rw [secGet_secSet_ne sh k _ hshk]; exact hg
      · exact hg
    split at h
    · next hslash =>
      split at h
      · next s1 rid heqsp =>
        split at h
        · next hmem1 =>
          split at h
          · exact Except.noConfusion h
          · next l heqget =>
            cases hker : s1 == k
            · rw [headerSuffixIds_cons_misskind sh flds rest k s1 rid hslash heqsp hker]
              refine ih _ secs l0 h ?_ ?_ hrest
              · rw [secMem_secSet]; exact hm1
              · rw [secGet_secSet_ne s1 k _ hker]; exact hg1
            · have hs1k : s1 = k := eq_of_beq hker
              have hll : l = l0 := by
                rw [hs1k] at heqget
                rw [heqget] at hg1
                injection hg1
              rw [hll] at h
              rw [headerSuffixIds_cons_hit sh flds rest k s1 rid hslash heqsp hker]
              obtain ⟨ha, hb⟩ := ih _ secs (l0 ++ [rid]) h
                (by rw [secMem_secSet]; exact hm1)
                (by rw [hs1k]; exact secGet_secSet_self k _ secs1 hm1)
                hrest
              refine ⟨?_, hb⟩
              rw [ha, List.append_assoc]
              rfl
        · next hmem1 =>
          have hker : (s1 == k) = false := by
            cases hb : s1 == k
            · rfl
            · have hs1k : s1 = k := eq_of_beq hb
              subst hs1k
              exact absurd hm1 (by simpa using hmem1)
          rw [headerSuffixIds_cons_misskind sh flds rest k s1 rid hslash heqsp hker]
          exact ih secs1 secs l0 h hm1 hg1 hrest
      · exact Except.noConfusion h
    · next hslash =>
      have hslash2 : inStr "/" sh = false := by simpa using hslash
      rw [headerSuffixIds_cons_noslash sh flds rest k hslash2]
      exact ih secs1 secs l0 h hm1 hg1 hrest

/-! ## Lemmas: unfolding `validate` and the triple stream -/

theorem validate_ok_loop (d : Doc) (h : validate d = .ok ()) :
    ∃ secs, collectLoop d initSections = .ok secs ∧ checkMandatory secs = .ok () ∧
      validateLoop secs d [] = .ok () := by
  unfold validate at h
  split at h
  · exact Except.noConfusion h
  · next secs hcoll =>
    split at h
    · exact Except.noConfusion h
    · next u hcm =>
      cases u
      exact ⟨secs, hcoll, hcm, h⟩

theorem validate_err_loop (d : Doc) (e : ValError) (h : validate d = .error e)
    (hne1 : e ≠ .attributeError) (hne2 : e ≠ .valueError)
    (hne3 : ∀ k, e ≠ .missingSection k) :
    ∃ secs, collectLoop d initSections = .ok secs ∧ validateLoop secs d [] = .error e := by
  unfold validate at h
  split at h
  · next e2 hcoll =>
    injection h with h2
    subst h2
    rcases collectLoop_err_shape d _ _ hcoll with h3 | h3
    · exact absurd h3 hne1
    · exact absurd h3 hne2
  · next secs hcoll =>
    split at h
    · next e2 hcm =>
      injection h with h2
      subst h2
      obtain ⟨k2, hk⟩ := checkMandatory_err_shape _ _ hcm
      exact absurd hk (hne3 k2)
    · exact ⟨secs, hcoll, h⟩

theorem sameSet_self (l : List String) : sameSet l l = true := by
  unfold sameSet subOf
  have h : l.all (fun x => l.contains x) = true := by
    rw [List.all_eq_true]
    intro x hx
    simpa using hx
  rw [h]
  rfl

theorem inner_triples (sh : String) :
    ∀ (fields : List (String × Value)) (acc : List (String × String × String)),
      (fields.flatMap (fun fv =>
        match fv.2 with
        | Value.one s => [(sh, fv.1, s)]
        | Value.many l => l.map (fun item => (sh, fv.1, item)))) ++ acc =
      fields.foldr (fun fv acc2 =>
        (arrfy fv.2).foldr (fun v acc3 => (sh, fv.1, v) :: acc3) acc2) acc := by
  intro fields
  induction fields with
  | nil => intro acc; simp
  | cons fv rest ih =>
    intro acc
    rw [List.flatMap_cons, List.append_assoc, ih, List.foldr_cons]
    obtain ⟨fn, fval⟩ := fv
    cases fval with
    | one s => rfl
    | many l =>
      show (l.map (fun item => (sh, fn, item))) ++ _ = l.foldr _ _
      induction l with
      | nil => rfl
      | cons x xs ihl =>
        rw [List.map_cons, List.cons_append, List.foldr_cons, ihl]

theorem getTriples_eq_spec (d : Doc) : getTriples d = specTripleSeq d := by
  induction d with
  | nil => rfl
  | cons sec rest ih =>
    have hcons : getTriples (sec :: rest) =
        (sec.2.flatMap fun fv =>
          match fv.2 with
          | Value.one s => [(sec.1, fv.1, s)]
          | Value.many l => l.map (fun item => (sec.1, fv.1, item))) ++
          getTriples rest := rfl
    have hspec : specTripleSeq (sec :: rest) =
        sec.2.foldr (fun fv acc2 =>
          (arrfy fv.2).foldr (fun v acc3 => (sec.1, fv.1, v) :: acc3) acc2)
          (specTripleSeq rest) := rfl
    rw [hcons, ih, hspec, ← inner_triples sec.1 sec.2 (specTripleSeq rest)]

theorem inner_count (sh : String) :
    ∀ (fields : List (String × Value)) (n : Nat),
      ((fields.flatMap (fun fv =>
        match fv.2 with
        | Value.one s => [(sh, fv.1, s)]
        | Value.many l => l.map (fun item => (sh, fv.1, item)))).length + n) =
      fields.foldr (fun fv n2 => (arrfy fv.2).length + n2) n := by
  intro fields
  induction fields with
  | nil => intro n; simp
  | cons fv rest ih =>
    intro n
    rw [List.flatMap_cons, List.length_append, List.foldr_cons, ← ih]
    obtain ⟨fn, fval⟩ := fv
    cases fval with
    | one s =>
      simp only [arrfy, List.length_cons, List.length_nil]
      omega
    | many l =>
      simp only [arrfy, List.length_map]
      omega

theorem getTriples_length (d : Doc) : (getTriples d).length = tripleCount d := by
  induction d with
  | nil => rfl
  | cons sec rest ih =>
    have hcons : (getTriples (sec :: rest)).length =
        ((sec.2.flatMap fun fv =>
          match fv.2 with
          | Value.one s => [(sec.1, fv.1, s)]
          | Value.many l => l.map (fun item => (sec.1, fv.1, item))).length +
          (getTriples rest).length) := by
      show ((_ ++ getTriples rest : List (String × String × String)).length = _)
      rw [List.length_append]
    have hc : tripleCount (sec :: rest) =
        sec.2.foldr (fun fv n2 => (arrfy fv.2).length + n2) (tripleCount rest) := rfl
    rw [hcons, ih, hc, ← inner_count sec.1 sec.2 (tripleCount rest)]

/-! ## Claim C1: the cross-reference check -/

/-- Claim C1 (amended): the cross-reference check compares the parent
section's id-list field with the child-kind header suffixes by exact list
equality — order- and multiplicity-sensitive — not set equality.
Consequently (i) a document that validates has, for every section matching a
parent kind, a child-id list equal as a *list* to the collected child-header
ids; (ii)-(iv) a passing check forces list equality for each of the three
parent/child pairs; (v) a set-inequal id list always fails the check; and
(vi) the collected entry is exactly the list of child-kind header suffixes
in document order (when no bare child-kind header interferes). -/
theorem c1_cross_reference_list_equality :
    (∀ (d : Doc) (secs : List (String × SecEntry)), validate d = .ok () →
       collectLoop d initSections = .ok secs →
       ∀ sh flds, (sh, flds) ∈ d → checkRefs sh flds secs = .ok ()) ∧
    (∀ (sh : String) (flds : List (String × Value)) (secs : List (String × SecEntry))
       (v : Value) (l : List String), inStr "fdp" sh = true →
       fieldsGet flds "catalog_id" = some v → secGet secs "catalog" = .ids l →
       checkRefs sh flds secs = .ok () → arrfy v = l) ∧
    (∀ (sh : String) (flds : List (String × Value)) (secs : List (String × SecEntry))
       (v : Value) (l : List String), inStr "catalog" sh = true →
       fieldsGet flds "dataset_id" = some v → secGet secs "dataset" = .ids l →
       checkRefs sh flds secs = .ok () → arrfy v = l) ∧
    (∀ (sh : String) (flds : List (String × Value)) (secs : List (String × SecEntry))
       (v : Value) (l : List String), inStr "dataset" sh = true →
       fieldsGet flds "distribution_id" = some v → secGet secs "distribution" = .ids l →
       checkRefs sh flds secs = .ok () → arrfy v = l) ∧
    (∀ (sh : String) (flds : List (String × Value)) (secs : List (String × SecEntry))
       (v : Value) (l : List String), inStr "fdp" sh = true →
       fieldsGet flds "catalog_id" = some v → secGet secs "catalog" = .ids l →
       sameSet (arrfy v) l = false → checkRefs sh flds secs ≠ .ok ()) ∧
    (∀ (d : Doc) (secs : List (String × SecEntry)) (k : String),
       collectLoop d initSections = .ok secs →
       (k = "catalog" ∨ k = "dataset" ∨ k = "distribution") →
       d.all (fun sec => !(sec.1 == k)) = true →
       secGet secs k = .ids (headerSuffixIds d k)) := by
  have part2 : ∀ (sh : String) (flds : List (String × Value))
      (secs : List (String × SecEntry)) (v : Value) (l : List String),
      inStr "fdp" sh = true → fieldsGet flds "catalog_id" = some v →
      secGet secs "catalog" = .ids l → checkRefs sh flds secs = .ok () →
      arrfy v = l := by
    intro sh flds secs v l hf hg hsec hok
    obtain ⟨v2, hg2, hentry⟩ := checkRefs_ok_fdp sh flds secs hf hok
    rw [hg] at hg2
    injection hg2 with hv
    subst hv
    rw [hsec] at hentry
    exact eq_of_beq hentry
  refine ⟨?_, part2, ?_, ?_, ?_, ?_⟩
  · intro d secs hok hcoll sh flds hmem
    obtain ⟨secs2, hcoll2, -, hloop⟩ := validate_ok_loop d hok
    rw [hcoll2] at hcoll
    injection hcoll with hsecs
    rw [← hsecs]
    obtain ⟨-, -, -, -, -, hcr⟩ := validateLoop_ok_mem d secs2 [] hloop sh flds hmem
    exact hcr
  · intro sh flds secs v l hf hg hsec hok
    obtain ⟨v2, hg2, hentry⟩ := checkRefs_ok_cat sh flds secs hf hok
    rw [hg] at hg2
    injection hg2 with hv
    subst hv
    rw [hsec] at hentry
    exact eq_of_beq hentry
  · intro sh flds secs v l hf hg hsec hok
    obtain ⟨v2, hg2, hentry⟩ := checkRefs_ok_dat sh flds secs hf hok
    rw [hg] at hg2
    injection hg2 with hv
    subst hv
    rw [hsec] at hentry
    exact eq_of_beq hentry
  · intro sh flds secs v l hf hg hsec hss hok
    have hvl := part2 sh flds secs v l hf hg hsec hok
    rw [hvl, sameSet_self] at hss
    exact Bool.noConfusion hss
  · intro d secs k hcoll hk hall
    have hm : secMem k initSections = true := by
      rcases hk with rfl | rfl | rfl <;> rfl
    have hg : secGet initSections k = .ids [] := by
      rcases hk with rfl | rfl | rfl <;> rfl
    obtain ⟨ha, -⟩ := collectLoop_ids k d initSections secs [] hcoll hm hg hall
    rw [List.nil_append] at ha
    exact ha

/-- Witness for C1 at the minimal valid document: the fdp section's
catalog-id list equals (as a list) the collected catalog header ids, and the
collected entry is the header-suffix list. -/
theorem c1_cross_reference_list_equality_witness :
    arrfy (.one "cat1") = ["cat1"] ∧
    secGet [("fdp", SecEntry.flag), ("catalog", .ids ["cat1"]),
            ("dataset", .ids ["dat1"]), ("distribution", .ids ["dis1"])] "catalog" =
      .ids (headerSuffixIds Dmin "catalog") :=
  ⟨c1_cross_reference_list_equality.2.1 "fdp"
      (core4 ++ [("fdp_id", .one "fdp0"), ("catalog_id", .one "cat1")])
      [("fdp", SecEntry.flag), ("catalog", .ids ["cat1"]),
       ("dataset", .ids ["dat1"]), ("distribution", .ids ["dis1"])]
      (.one "cat1") ["cat1"] (by rfl) (by rfl) (by rfl) (by rfl),
   c1_cross_reference_list_equality.2.2.2.2.2 Dmin
      [("fdp", SecEntry.flag), ("catalog", .ids ["cat1"]),
       ("dataset", .ids ["dat1"]), ("distribution", .ids ["dis1"])]
      "catalog" (by rfl) (Or.inl rfl) (by rfl)⟩

/-- Counterexample to C1 as stated: in `Dswap` the fdp section lists the two
catalog ids in the opposite of header order — the two sets are equal — yet
validation fails with the dangling-reference error, because the code
compares lists, not sets. -/
theorem c1_counterexample :
    sameSet ["cat2", "cat1"] (headerSuffixIds Dswap "catalog") = true ∧
    fieldsGet (core4 ++ [("fdp_id", .one "fdp0"), ("catalog_id", .many ["cat2", "cat1"])])
      "catalog_id" = some (.many ["cat2", "cat1"]) ∧
    validate Dswap = .error (.danglingReference "fdp" "catalog_id" "catalog") :=
  ⟨by rfl, by rfl, by rfl⟩

/-! ## Claim C2: missing required fields -/

/-- Claim C2 (amended): a document that contains all mandatory sections but
lacks a required field (for an alternative pair, both halves) in a section
of the corresponding kind never validates; and whenever validation reports
`MissingField(f, s)`, the field `f` really is a required field (or pair) of
section `s`'s kind that `s` fails to satisfy.  (The error actually reported
can be an earlier-detected one, e.g. a duplicate resource id — see the
counterexample.) -/
theorem c2_missing_required_field :
    (∀ (d : Doc) (sh : String) (flds : List (String × Value)) (reqs : List String)
       (f : String), (sh, flds) ∈ d → requiredMeta (kindOf sh) = some reqs →
       f ∈ reqs → fieldOk flds f = false → validate d ≠ .ok ()) ∧
    (∀ (d : Doc) (f s : String), validate d = .error (.missingField f s) →
       ∃ flds reqs, (s, flds) ∈ d ∧ requiredMeta (kindOf s) = some reqs ∧
         f ∈ reqs ∧ fieldOk flds f = false) := by
  constructor
  · intro d sh flds reqs f hmem hreq hf hok hcontra
    obtain ⟨secs, -, -, hloop⟩ := validate_ok_loop d hcontra
    obtain ⟨reqs2, u1, u2, hreq2, hcf, -⟩ := validateLoop_ok_mem d secs [] hloop sh flds hmem
    rw [hreq] at hreq2
    injection hreq2 with hreq3
    subst hreq3
    have hall := checkFields_ok_all sh flds reqs u1 u2 hcf f hf
    rw [hok] at hall
    exact Bool.noConfusion hall
  · intro d f s h
    obtain ⟨secs, -, hloop⟩ := validate_err_loop d _ h
      (fun hx => ValError.noConfusion hx) (fun hx => ValError.noConfusion hx)
      (fun k hx => ValError.noConfusion hx)
    exact validateLoop_err_missing d secs [] f s hloop

/-- Witness for C2: `Ddup` lacks `title` in its catalog section and indeed
fails to validate; and the `MissingField` report on `Dmf` names a genuinely
absent required field. -/
theorem c2_missing_required_field_witness :
    validate Ddup ≠ .ok () ∧
    (∃ flds reqs, ("fdp", flds) ∈ Dmf ∧ requiredMeta (kindOf "fdp") = some reqs ∧
       "title" ∈ reqs ∧ fieldOk flds "title" = false) :=
  ⟨c2_missing_required_field.1 Ddup "catalog/c1"
      [("publisher", .one "P"), ("version", .one "1.0"),
       ("issued", .one "2015-11-24"), ("modified", .one "2015-11-24"),
       ("dataset_id", .one "d1"), ("theme_taxonomy", .one "TT")]
      (CORE_META ++ ["dataset_id", "theme_taxonomy"]) "title"
      (by decide) (by rfl) (by decide) (by rfl),
   c2_missing_required_field.2 Dmf "title" "fdp" (by rfl)⟩

/-- Counterexample to C2 as stated: `Ddup` contains all mandatory sections
and its catalog section lacks the required `title`, yet `validate` fails
with `DuplicateResourceId "x"` — the duplicate in the earlier fdp section is
detected first. -/
theorem c2_counterexample :
    collectLoop Ddup initSections =
      .ok [("fdp", SecEntry.flag), ("catalog", .ids ["c1"]),
           ("dataset", .ids ["d1"]), ("distribution", .ids ["e1"])] ∧
    checkMandatory [("fdp", SecEntry.flag), ("catalog", .ids ["c1"]),
           ("dataset", .ids ["d1"]), ("distribution", .ids ["e1"])] = .ok () ∧
    fieldsGet [("publisher", Value.one "P"), ("version", .one "1.0"),
       ("issued", .one "2015-11-24"), ("modified", .one "2015-11-24"),
       ("dataset_id", .one "d1"), ("theme_taxonomy", .one "TT")] "title" = none ∧
    ("catalog/c1", [("publisher", Value.one "P"), ("version", .one "1.0"),
       ("issued", .one "2015-11-24"), ("modified", .one "2015-11-24"),
       ("dataset_id", .one "d1"), ("theme_taxonomy", .one "TT")]) ∈ Ddup ∧
    validate Ddup = .error (.duplicateResourceId "x") :=
  ⟨by rfl, by rfl, by rfl, by decide, by rfl⟩

/-! ## Claim C3: global resource-id uniqueness -/

/-- Claim C3 (amended): the ids declared by required id fields share one
global namespace: a document declaring some id twice (across any kinds, or
twice within one list) never validates; a document whose declared ids are
pairwise distinct never fails with `DuplicateResourceId`; and a
`DuplicateResourceId i` report means `i` really occurs at least twice among
the declared ids.  (The error reported for a duplicate can be an
earlier-detected one, e.g. a missing field — see the counterexample.) -/
theorem c3_duplicate_resource_id :
    (∀ d : Doc, ¬ (declaredIds d).Nodup → validate d ≠ .ok ()) ∧
    (∀ d : Doc, (declaredIds d).Nodup →
       ∀ i, validate d ≠ .error (.duplicateResourceId i)) ∧
    (∀ (d : Doc) (i : String), validate d = .error (.duplicateResourceId i) →
       2 ≤ (declaredIds d).count i) := by
  refine ⟨?_, ?_, ?_⟩
  · intro d hnd hcontra
    obtain ⟨secs, -, -, hloop⟩ := validate_ok_loop d hcontra
    have h2 := validateLoop_ok_nodup d secs [] List.nodup_nil hloop
    rw [List.nil_append] at h2
    exact hnd h2
  · intro d hnd i hcontra
    obtain ⟨secs, -, hloop⟩ := validate_err_loop d _ hcontra
      (fun hx => ValError.noConfusion hx) (fun hx => ValError.noConfusion hx)
      (fun k hx => ValError.noConfusion hx)
    exact validateLoop_no_dup_of_nodup d secs []
      (by rw [List.nil_append]; exact hnd) i hloop
  · intro d i h
    obtain ⟨secs, -, hloop⟩ := validate_err_loop d _ h
      (fun hx => ValError.noConfusion hx) (fun hx => ValError.noConfusion hx)
      (fun k hx => ValError.noConfusion hx)
    rcases validateLoop_err_dup d secs [] i hloop with ⟨hu, -⟩ | hc
    · simp at hu
    · exact hc

/-- Witness for C3: the minimal valid document has pairwise-distinct ids and
never triggers the duplicate-id error. -/
theorem c3_duplicate_resource_id_witness :
    validate Dmin ≠ .error (.duplicateResourceId "cat1") :=
  c3_duplicate_resource_id.2.1 Dmin (by decide) "cat1"

/-- Counterexample to C3 as stated: `Dmf` declares the id `y` twice
(`fdp_id` and `catalog_id`), yet validation fails with
`MissingField "title" "fdp"`, which the field loop reaches first. -/
theorem c3_counterexample :
    2 ≤ (declaredIds Dmf).count "y" ∧
    validate Dmf = .error (.missingField "title" "fdp") :=
  ⟨by decide, by rfl⟩

/-! ## Claim C4: the derived triple stream -/

/-- Claim C4: for every valid document the triple stream contains exactly
one (section, field, value) tuple per declared field-value pair, expanding a
multi-valued field into one tuple per element, in section-then-field-then-
value declaration order: it equals the spec-worded sequence and its length
is the declared pair count. -/
theorem c4_triple_stream (d : Doc) (_hv : validate d = .ok ()) :
    getTriples d = specTripleSeq d ∧ (getTriples d).length = tripleCount d :=
  ⟨getTriples_eq_spec d, getTriples_length d⟩

/-- Witness for C4 at the minimal valid document (29 declared pairs). -/
theorem c4_triple_stream_witness :
    getTriples Dmin = specTripleSeq Dmin ∧ (getTriples Dmin).length = 29 :=
  ⟨(c4_triple_stream Dmin (by rfl)).1, ((c4_triple_stream Dmin (by rfl)).2).trans (by rfl)⟩

/-! ## Claim C9: sections of unknown kind -/

/-- Claim C9 (amended): a document containing a section whose header prefix
is not one of the four known kinds never validates; when the mandatory-
section check passes and the unknown-kind section is the first one the field
loop reaches, validation aborts with the raw `KeyError` of the
`_REQUIRED_META` lookup rather than one of the four documented errors — but
an unknown-kind document can also fail earlier with `MissingSection` (see
the counterexample), so the four-error taxonomy is exhaustive only when
every section kind is known. -/
theorem c9_unknown_kind :
    (∀ (d : Doc) (sh : String) (flds : List (String × Value)),
       (sh, flds) ∈ d → requiredMeta (kindOf sh) = none → validate d ≠ .ok ()) ∧
    (∀ (sh : String) (flds : List (String × Value)) (rest : Doc)
       (secs : List (String × SecEntry)),
       collectLoop ((sh, flds) :: rest) initSections = .ok secs →
       checkMandatory secs = .ok () → requiredMeta (kindOf sh) = none →
       validate ((sh, flds) :: rest) = .error (.keyError (kindOf sh))) := by
  constructor
  · intro d sh flds hmem hreqn hcontra
    obtain ⟨secs, -, -, hloop⟩ := validate_ok_loop d hcontra
    obtain ⟨reqs, -, -, hreq, -, -⟩ := validateLoop_ok_mem d secs [] hloop sh flds hmem
    rw [hreqn] at hreq
    exact Option.noConfusion hreq
  · intro sh flds rest secs hcoll hcm hreqn
    simp only [validate, hcoll, hcm, validateLoop, hreqn]

/-- Witness for C9: `Dzzz` has all mandatory sections and an unknown-kind
section `zzz/q` first, so validation aborts with the raw `KeyError "zzz"`. -/
theorem c9_unknown_kind_witness :
    validate Dzzz = .error (.keyError "zzz") :=
  c9_unknown_kind.2 "zzz/q" [("title", .one "t")] Dzzz.tail
    [("fdp", SecEntry.flag), ("catalog", .ids ["c1"]),
     ("dataset", .ids ["d1"]), ("distribution", .ids ["e1"])]
    (by rfl) (by rfl) (by rfl)

/-- Counterexample to C9 as stated: `Dfoo` consists of a single section of
unknown kind `foo`, yet validation aborts with `MissingSection "fdp"` — one
of the four documented errors — because the mandatory-section check runs
before the required-field table is consulted. -/
theorem c9_counterexample :
    requiredMeta (kindOf "foo") = none ∧
    validate Dfoo = .error (.missingSection "fdp") :=
  ⟨by rfl, by rfl⟩

end FDP
